import Mathlib

/-!
Verification of the AskData schema-aware query correction and execution
pipeline.  The TypeScript sources are shallowly embedded: strings are
`List Char` (wrapped in `String` at the interfaces), the JavaScript regular
expressions used by the repair pipeline are interpreted by a small
backtracking matcher (`mres`) that follows the ECMAScript semantics of the
exact constructs those patterns use (leftmost match, greedy/lazy
single-character-class quantifiers, alternation priority, word boundaries,
lookahead, `lastIndex` advancement for global matching), and effectful code
(ingestion storage, connector calls) is embedded as explicit state passing
with boolean/`Except` oracles for the outcomes of the external calls.
-/

namespace AskData

/-! ### Character helpers (ECMAScript flavoured) -/

/-- The range `A-Z` (code points 65-90). -/
def isAsciiUpper (c : Char) : Bool :=
  65 ≤ c.toNat && c.toNat ≤ 90

/-- The range `a-z` (code points 97-122). -/
def isAsciiLower (c : Char) : Bool :=
  97 ≤ c.toNat && c.toNat ≤ 122

/-- The range `0-9` (code points 48-57), ECMAScript `\d`. -/
def isAsciiDigit (c : Char) : Bool :=
  48 ≤ c.toNat && c.toNat ≤ 57

/-- ASCII lower-casing, as `String.prototype.toLowerCase` behaves on the
ASCII range (every call site in the embedded code lower-cases strings whose
characters are ASCII). -/
def jsLowerChar (c : Char) : Char :=
  if isAsciiUpper c then Char.ofNat (c.toNat + 32) else c

/-- ASCII upper-casing, as `String.prototype.toUpperCase` behaves on the
ASCII range. -/
def jsUpperChar (c : Char) : Char :=
  if isAsciiLower c then Char.ofNat (c.toNat - 32) else c

/-- ECMAScript `\s` restricted to the characters that can occur here
(ASCII whitespace plus NBSP). -/
def jsIsSpace (c : Char) : Bool :=
  c = ' ' || c = '\t' || c = '\n' || c = '\r' ||
  c.toNat = 11 || c.toNat = 12 || c.toNat = 160

/-- ECMAScript word character (`\w`, the `\b` alphabet): `[A-Za-z0-9_]`. -/
def isWordChar (c : Char) : Bool :=
  isAsciiUpper c || isAsciiLower c || isAsciiDigit c || c = '_'

/-- The identifier alphabet `[a-zA-Z0-9_]` of the sanitizers (same set as
`isWordChar`, named after its role). -/
def isAlnumU (c : Char) : Bool :=
  isAsciiUpper c || isAsciiLower c || isAsciiDigit c || c = '_'

def jsLowerL (l : List Char) : List Char := l.map jsLowerChar

def jsUpperL (l : List Char) : List Char := l.map jsUpperChar

/-- `String.prototype.trim` on a character list. -/
def jsTrimL (l : List Char) : List Char :=
  ((l.dropWhile jsIsSpace).reverse.dropWhile jsIsSpace).reverse

def jsLowerS (s : String) : String := ⟨jsLowerL s.data⟩

def jsUpperS (s : String) : String := ⟨jsUpperL s.data⟩

def jsTrimS (s : String) : String := ⟨jsTrimL s.data⟩

/-! ### A backtracking matcher for the regular expressions of the repair
pipeline.

Every quantifier in the source patterns ranges over a single-character
class, so a regex here is built from character classes, literals,
sequencing, alternation, class repetition, capturing groups, lookahead,
word boundaries and the end anchor.  `mres` lists the candidate matches at
one start position in exactly the backtracking engine's priority order, so
taking the head of the list at the first start position with a non-empty
list reproduces the match JavaScript finds. -/

inductive RGX where
  | eps
  | cls (p : Char → Bool)
  | lit (cs : List Char) (ci : Bool)
  | seq (a b : RGX)
  | alt (a b : RGX)
  | rep (p : Char → Bool) (lo : Nat) (hi : Option Nat) (greedy : Bool)
  | grp (idx : Nat) (r : RGX)
  | look (positive : Bool) (r : RGX)
  | wordB
  | eol

/-- Capture registers for groups 1 and 2 (no source pattern uses more). -/
structure Caps where
  g1 : Option (Nat × Nat) := none
  g2 : Option (Nat × Nat) := none
deriving DecidableEq, Repr

def Caps.set (k : Caps) (i a b : Nat) : Caps :=
  if i = 1 then { k with g1 := some (a, b) }
  else if i = 2 then { k with g2 := some (a, b) }
  else k

/-- Case-insensitive character comparison (the `i` flag), simple ASCII
folding. -/
def ciEqChar (a b : Char) (ci : Bool) : Bool :=
  if ci then jsLowerChar a = jsLowerChar b else a = b

def litHere (pat : List Char) (ci : Bool) : List Char → Bool
  | rest =>
    match pat, rest with
    | [], _ => true
    | _ :: _, [] => false
    | p :: ps, c :: cs => ciEqChar p c ci && litHere ps ci cs

def countWhile (p : Char → Bool) (l : List Char) : Nat :=
  (l.takeWhile p).length

def isWordAt (s : List Char) (i : Nat) : Bool :=
  match s[i]? with
  | some c => isWordChar c
  | none => false

def wordBoundaryAt (s : List Char) (pos : Nat) : Bool :=
  let prev := match pos with
    | 0 => false
    | p + 1 => isWordAt s p
  prev != isWordAt s pos

/-- All candidate continuations of matching `r` at `pos`, in backtracking
priority order (first element = what the JavaScript engine commits to). -/
def mres : RGX → List Char → Nat → Caps → List (Nat × Caps)
  | .eps, _, pos, k => [(pos, k)]
  | .cls p, s, pos, k =>
    match s[pos]? with
    | some c => if p c then [(pos + 1, k)] else []
    | none => []
  | .lit cs ci, s, pos, k =>
    if litHere cs ci (s.drop pos) then [(pos + cs.length, k)] else []
  | .seq a b, s, pos, k => (mres a s pos k).flatMap fun pc => mres b s pc.1 pc.2
  | .alt a b, s, pos, k => mres a s pos k ++ mres b s pos k
  | .rep p lo hi g, s, pos, k =>
    let m := countWhile p (s.drop pos)
    let top := match hi with
      | some h => min h m
      | none => m
    if lo ≤ top then
      let ns := (List.range (top - lo + 1)).map (lo + ·)
      ((if g then ns.reverse else ns).map fun n => (pos + n, k))
    else []
  | .grp i r, s, pos, k => (mres r s pos k).map fun pc => (pc.1, pc.2.set i pos pc.1)
  | .look true r, s, pos, k => if (mres r s pos k).isEmpty then [] else [(pos, k)]
  | .look false r, s, pos, k => if (mres r s pos k).isEmpty then [(pos, k)] else []
  | .wordB, s, pos, k => if wordBoundaryAt s pos then [(pos, k)] else []
  | .eol, s, pos, k => if pos = s.length then [(pos, k)] else []

/-- Leftmost search from `start` (fuel-driven so that it reduces in the
kernel); returns `(matchStart, matchEnd, captures)`. -/
def searchFrom (r : RGX) (s : List Char) : Nat → Nat → Option (Nat × Nat × Caps)
  | _, 0 => none
  | start, f + 1 =>
    if start ≤ s.length then
      match mres r s start {} with
      | (e, k) :: _ => some (start, e, k)
      | [] => searchFrom r s (start + 1) f
    else none

def rsearch (r : RGX) (s : List Char) : Option (Nat × Nat × Caps) :=
  searchFrom r s 0 (s.length + 1)

/-- Global matching: successive searches advancing `lastIndex` to the match
end (bumped by one on an empty match), as `String.prototype.matchAll`. -/
def matchAllFrom (r : RGX) (s : List Char) : Nat → Nat → List (Nat × Nat × Caps)
  | _, 0 => []
  | idx, f + 1 =>
    match searchFrom r s idx (s.length + 1 - idx) with
    | none => []
    | some (a, b, k) =>
      (a, b, k) :: matchAllFrom r s (if idx < b then b else b + 1) f

def rmatchAll (r : RGX) (s : List Char) : List (Nat × Nat × Caps) :=
  matchAllFrom r s 0 (s.length + 2)

/-- The slice `s[a..b)`. -/
def sliceL (s : List Char) (a b : Nat) : List Char :=
  (s.drop a).take (b - a)

/-- `String.prototype.replace` with a non-global regex and a replacement
carrying no `$` escapes (none of the replacement strings used by the
embedded code contains `$`). -/
def replaceFirstWith (r : RGX) (s repl : List Char) : List Char :=
  match rsearch r s with
  | none => s
  | some (a, b, _) => s.take a ++ repl ++ s.drop b

def seqR (rs : List RGX) : RGX := rs.foldr .seq .eps

def altsR : List RGX → RGX
  | [] => .cls fun _ => false
  | [r] => r
  | r :: rs => .alt r (altsR rs)

def litS (s : String) (ci : Bool) : RGX := .lit s.data ci

/-! ### Identifier sanitization (Schema Catalog)

`sanitizeIdentifier` is the five-step chain applied to source/table names in
`storeProcessedData` (fileProcessor.ts), `getSourceSchemas`
(documentService.ts) and `generateSQLQuery` (ollamaService.ts):
`.replace` of `^\d{13}-` with the empty string, `.replace` of `\.[^/.]+$` with the empty string,
global `.replace` of `[^a-zA-Z0-9_]` with an underscore, `.replace` of `^[0-9]` with `t$&`,
`.toLowerCase()`. -/

/-- `.replace` of `^\d{13}-` with the empty string: drop a leading run of exactly 13 digits
followed by a dash. -/
def stripTimestampPfx (l : List Char) : List Char :=
  if 14 ≤ l.length ∧ (l.take 13).all isAsciiDigit ∧ l[13]? = some '-' then
    l.drop 14
  else l

/-- `.replace` of `\.[^/.]+$` with the empty string: the only candidate match is the last dot;
it matches when at least one character follows it and none of them is a
slash (none can be a dot, the dot being last). -/
def stripExtension (l : List Char) : List Char :=
  let r := l.reverse
  match r.findIdx? (· = '.') with
  | some i => if 0 < i ∧ (r.take i).all (· ≠ '/') then (r.drop (i + 1)).reverse else l
  | none => l

/-- global `.replace` of `[^a-zA-Z0-9_]` with an underscore. -/
def replaceNonAlnum (l : List Char) : List Char :=
  l.map fun c => if isAlnumU c then c else '_'

/-- `.replace` of `^[0-9]` with `t$&`: prepend `t` when the first character is a
digit (`$&` re-inserts the matched digit). -/
def prefixDigitT : List Char → List Char
  | [] => []
  | c :: rest => if isAsciiDigit c then 't' :: c :: rest else c :: rest

def sanitizeIdentifierL (l : List Char) : List Char :=
  jsLowerL (prefixDigitT (replaceNonAlnum (stripExtension (stripTimestampPfx l))))

def sanitizeIdentifier (s : String) : String :=
  ⟨sanitizeIdentifierL s.data⟩

/-! ### Column-name sanitization (`sanitizeColumnName`, fileProcessor.ts) -/

/-- global `.replace` of `[()]` with the empty string. -/
def removeParens (l : List Char) : List Char :=
  l.filter fun c => ¬(c = '(' ∨ c = ')')

/-- global `.replace` of `[\s#\x2d]` with an underscore. -/
def replaceWsHashDash (l : List Char) : List Char :=
  l.map fun c => if jsIsSpace c || c = '#' || c = '-' then '_' else c

/-- global `.replace` of `[^a-zA-Z0-9_]` with the empty string. -/
def removeSpecial (l : List Char) : List Char :=
  l.filter isAlnumU

/-- global `.replace` of `_+` with a single underscore: collapse each run of underscores to one. -/
def collapseU : List Char → List Char
  | [] => []
  | [c] => [c]
  | c1 :: c2 :: rest =>
    if c1 = '_' ∧ c2 = '_' then collapseU (c2 :: rest)
    else c1 :: collapseU (c2 :: rest)

/-- global `.replace` of `_$` with the empty string: the anchor admits a
single match, the final character when it is an underscore. -/
def removeTrailingU (l : List Char) : List Char :=
  match l.getLast? with
  | some c => if c = '_' then l.dropLast else l
  | none => l

/-- `.replace` of `^(\d)` with `col_$1`. -/
def prefixDigitCol : List Char → List Char
  | [] => []
  | c :: rest =>
    if isAsciiDigit c then 'c' :: 'o' :: 'l' :: '_' :: c :: rest else c :: rest

def sanitizeColumnNameL (l : List Char) : List Char :=
  jsLowerL (prefixDigitCol (removeTrailingU (collapseU (removeSpecial
    (replaceWsHashDash (removeParens l))))))

def sanitizeColumnName (s : String) : String :=
  ⟨sanitizeColumnNameL s.data⟩

/-! ### Character-level lemmas -/

theorem char_toNat_ofNat {n : Nat} (h : n < 55296) : (Char.ofNat n).toNat = n := by
  have hv : n.isValidChar := Or.inl h
  unfold Char.ofNat
  simp only [hv, dite_true, dif_pos]
  unfold Char.ofNatAux Char.toNat
  simp [UInt32.toNat, BitVec.toNat_ofNatLt]

theorem char_eq_iff {c d : Char} : c = d ↔ c.toNat = d.toNat := by
  constructor
  · intro h; rw [h]
  · intro h
    rw [← Char.ofNat_toNat c, ← Char.ofNat_toNat d, h]

theorem toNat_jsLowerChar (c : Char) :
    (jsLowerChar c).toNat = if 65 ≤ c.toNat ∧ c.toNat ≤ 90 then c.toNat + 32 else c.toNat := by
  unfold jsLowerChar isAsciiUpper
  by_cases h : 65 ≤ c.toNat ∧ c.toNat ≤ 90
  · have hb : (decide (65 ≤ c.toNat) && decide (c.toNat ≤ 90)) = true := by
      simp [h.1, h.2]
    rw [hb, if_pos rfl, if_pos h]
    exact char_toNat_ofNat (by omega)
  · have hb : (decide (65 ≤ c.toNat) && decide (c.toNat ≤ 90)) = false := by
      rcases not_and_or.mp h with h1 | h1 <;> simp [h1]
    rw [hb, if_neg h]
    simp

theorem isAsciiUpper_iff {c : Char} :
    isAsciiUpper c = true ↔ 65 ≤ c.toNat ∧ c.toNat ≤ 90 := by
  unfold isAsciiUpper; simp

theorem isAsciiLower_iff {c : Char} :
    isAsciiLower c = true ↔ 97 ≤ c.toNat ∧ c.toNat ≤ 122 := by
  unfold isAsciiLower; simp

theorem isAsciiDigit_iff {c : Char} :
    isAsciiDigit c = true ↔ 48 ≤ c.toNat ∧ c.toNat ≤ 57 := by
  unfold isAsciiDigit; simp

theorem underscore_iff {c : Char} : c = '_' ↔ c.toNat = 95 := char_eq_iff

theorem isAlnumU_iff {c : Char} :
    isAlnumU c = true ↔
      (65 ≤ c.toNat ∧ c.toNat ≤ 90) ∨ (97 ≤ c.toNat ∧ c.toNat ≤ 122) ∨
      (48 ≤ c.toNat ∧ c.toNat ≤ 57) ∨ c.toNat = 95 := by
  unfold isAlnumU
  simp only [Bool.or_eq_true, isAsciiUpper_iff, isAsciiLower_iff, isAsciiDigit_iff,
    underscore_iff, decide_eq_true_eq]
  omega

theorem jsLowerChar_idem (c : Char) :
    jsLowerChar (jsLowerChar c) = jsLowerChar c := by
  rw [char_eq_iff, toNat_jsLowerChar, toNat_jsLowerChar c]
  by_cases h : 65 ≤ c.toNat ∧ c.toNat ≤ 90
  · rw [if_pos h, if_neg (by omega)]
  · rw [if_neg h, if_neg h]

theorem isAlnumU_jsLowerChar {c : Char} (h : isAlnumU c = true) :
    isAlnumU (jsLowerChar c) = true := by
  rw [isAlnumU_iff] at h ⊢
  rw [toNat_jsLowerChar]
  by_cases hu : 65 ≤ c.toNat ∧ c.toNat ≤ 90
  · rw [if_pos hu]; omega
  · rw [if_neg hu]; omega

theorem isAsciiDigit_jsLowerChar (c : Char) :
    isAsciiDigit (jsLowerChar c) = isAsciiDigit c := by
  by_cases h : isAsciiDigit (jsLowerChar c) = true
  · rw [h]
    rw [isAsciiDigit_iff, toNat_jsLowerChar] at h
    rw [eq_comm, isAsciiDigit_iff]
    by_cases hu : 65 ≤ c.toNat ∧ c.toNat ≤ 90
    · rw [if_pos hu] at h; omega
    · rwa [if_neg hu] at h
  · rw [Bool.not_eq_true] at h
    rw [h, eq_comm, Bool.eq_false_iff]
    intro hc
    rw [isAsciiDigit_iff] at hc
    rw [Bool.eq_false_iff] at h
    apply h
    rw [isAsciiDigit_iff, toNat_jsLowerChar, if_neg (by omega)]
    exact hc

theorem jsLowerChar_underscore_iff {c : Char} : jsLowerChar c = '_' ↔ c = '_' := by
  rw [underscore_iff, underscore_iff, toNat_jsLowerChar]
  by_cases hu : 65 ≤ c.toNat ∧ c.toNat ≤ 90
  · rw [if_pos hu]; omega
  · rw [if_neg hu]

theorem goodOut_jsLowerChar {c : Char} (h : isAlnumU c = true) :
    (isAsciiLower (jsLowerChar c) || isAsciiDigit (jsLowerChar c) ||
      jsLowerChar c = '_') = true := by
  rw [isAlnumU_iff] at h
  simp only [Bool.or_eq_true, decide_eq_true_eq, isAsciiLower_iff, isAsciiDigit_iff,
    underscore_iff, toNat_jsLowerChar]
  by_cases hu : 65 ≤ c.toNat ∧ c.toNat ≤ 90
  · rw [if_pos hu]; omega
  · rw [if_neg hu]; omega

/-! ### Idempotence of identifier sanitization (claim C2) -/

theorem mem_prefixDigitT {c : Char} {l : List Char} (h : c ∈ prefixDigitT l) :
    c ∈ l ∨ c = 't' := by
  cases l with
  | nil => simp [prefixDigitT] at h
  | cons a t =>
    unfold prefixDigitT at h
    by_cases ha : isAsciiDigit a = true
    · simp [ha] at h
      rcases h with h | h | h
      · exact Or.inr h
      · exact Or.inl (by simp [h])
      · exact Or.inl (by simp [h])
    · simp [ha] at h
      rcases h with h | h
      · exact Or.inl (by simp [h])
      · exact Or.inl (by simp [h])

theorem mem_replaceNonAlnum {c : Char} {l : List Char} (h : c ∈ replaceNonAlnum l) :
    isAlnumU c = true := by
  unfold replaceNonAlnum at h
  obtain ⟨a, _, rfl⟩ := List.mem_map.mp h
  by_cases ha : isAlnumU a = true
  · simp [ha]
  · simp [ha]
    decide

theorem sanitizeIdentifierL_alnum {l : List Char} :
    ∀ c ∈ sanitizeIdentifierL l, isAlnumU c = true := by
  intro c hc
  unfold sanitizeIdentifierL jsLowerL at hc
  obtain ⟨b, hb, rfl⟩ := List.mem_map.mp hc
  rcases mem_prefixDigitT hb with hb' | rfl
  · exact isAlnumU_jsLowerChar (mem_replaceNonAlnum hb')
  · decide

theorem prefixDigitT_head_not_digit {b : Char} {l : List Char}
    (h : (prefixDigitT l).head? = some b) : isAsciiDigit b = false := by
  cases l with
  | nil => simp [prefixDigitT] at h
  | cons a t =>
    unfold prefixDigitT at h
    by_cases ha : isAsciiDigit a = true
    · simp [ha] at h
      rw [← h]
      decide
    · simp [ha] at h
      rw [← h]
      simp [ha]

theorem sanitizeIdentifierL_head {l : List Char} {c : Char}
    (h : (sanitizeIdentifierL l).head? = some c) : isAsciiDigit c = false := by
  unfold sanitizeIdentifierL jsLowerL at h
  rw [List.head?_map] at h
  cases hy : (prefixDigitT (replaceNonAlnum (stripExtension (stripTimestampPfx l)))).head? with
  | none => rw [hy] at h; simp at h
  | some b =>
    rw [hy] at h
    simp at h
    rw [← h, isAsciiDigit_jsLowerChar]
    exact prefixDigitT_head_not_digit hy

theorem stripTimestampPfx_eq_self {l : List Char} (h : ∀ c ∈ l, isAlnumU c = true) :
    stripTimestampPfx l = l := by
  unfold stripTimestampPfx
  rw [if_neg]
  rintro ⟨h1, h2, h3⟩
  have hm : ('-' : Char) ∈ l := List.getElem?_mem h3
  have h45 := h _ hm
  rw [isAlnumU_iff] at h45
  have : ('-' : Char).toNat = 45 := rfl
  omega

theorem stripExtension_eq_self {l : List Char} (h : ∀ c ∈ l, isAlnumU c = true) :
    stripExtension l = l := by
  unfold stripExtension
  have hn : l.reverse.findIdx? (· = '.') = none := by
    rw [List.findIdx?_eq_none_iff]
    intro x hx
    have hax := h x (List.mem_reverse.mp hx)
    rw [isAlnumU_iff] at hax
    simp only [decide_eq_false_iff_not]
    intro hx'
    rw [hx'] at hax
    have : ('.' : Char).toNat = 46 := rfl
    omega
  simp only [hn]

theorem replaceNonAlnum_eq_self {l : List Char} (h : ∀ c ∈ l, isAlnumU c = true) :
    replaceNonAlnum l = l := by
  unfold replaceNonAlnum
  induction l with
  | nil => rfl
  | cons a t ih =>
    simp only [List.map_cons]
    rw [if_pos (h a (by simp)), ih fun c hc => h c (by simp [hc])]

theorem prefixDigitT_eq_self {l : List Char}
    (h : ∀ c, l.head? = some c → isAsciiDigit c = false) :
    prefixDigitT l = l := by
  cases l with
  | nil => rfl
  | cons a t =>
    unfold prefixDigitT
    have := h a rfl
    simp [this]

theorem jsLowerL_idem (l : List Char) : jsLowerL (jsLowerL l) = jsLowerL l := by
  unfold jsLowerL
  rw [List.map_map]
  have : jsLowerChar ∘ jsLowerChar = jsLowerChar := funext jsLowerChar_idem
  rw [this]

theorem sanitizeIdentifierL_idem (l : List Char) :
    sanitizeIdentifierL (sanitizeIdentifierL l) = sanitizeIdentifierL l := by
  nth_rewrite 1 [sanitizeIdentifierL]
  rw [stripTimestampPfx_eq_self sanitizeIdentifierL_alnum,
      stripExtension_eq_self sanitizeIdentifierL_alnum,
      replaceNonAlnum_eq_self sanitizeIdentifierL_alnum,
      prefixDigitT_eq_self fun c hc => sanitizeIdentifierL_head hc]
  rw [sanitizeIdentifierL]
  exact jsLowerL_idem _

/-- C2: the identifier sanitization chain (strip a leading 13-digit
timestamp prefix, strip the file extension, replace every character outside
`[a-zA-Z0-9_]` with an underscore, prefix a leading digit with `t`,
lower-case) is idempotent: sanitizing twice equals sanitizing once, for
every raw source name. -/
theorem C2_sanitizeIdentifier_idempotent (x : String) :
    sanitizeIdentifier (sanitizeIdentifier x) = sanitizeIdentifier x :=
  congrArg String.mk (sanitizeIdentifierL_idem x.data)

/-! ### Shape invariants of column-name sanitization (claim C10) -/

/-- The no-repeated-underscore relation of claim C10. -/
def noDoubleU (a b : Char) : Prop := ¬(a = '_' ∧ b = '_')

/-- The output alphabet claimed for `sanitizeColumnName`: lowercase
letters, digits and underscores. -/
def isSanitizedColChar (c : Char) : Bool :=
  isAsciiLower c || isAsciiDigit c || c = '_'

theorem mem_collapseU {c : Char} : ∀ {l : List Char}, c ∈ collapseU l → c ∈ l := by
  intro l
  induction l with
  | nil => intro hc; simp [collapseU] at hc
  | cons a t ih =>
    cases t with
    | nil => intro hc; simpa [collapseU] using hc
    | cons b u =>
      intro hc
      unfold collapseU at hc
      by_cases hab : a = '_' ∧ b = '_'
      · rw [if_pos hab] at hc
        exact List.mem_cons_of_mem a (ih hc)
      · rw [if_neg hab] at hc
        rcases List.mem_cons.mp hc with rfl | hc'
        · exact List.mem_cons_self c _
        · exact List.mem_cons_of_mem a (ih hc')

theorem head?_collapseU_underscore :
    ∀ {b : Char} {u : List Char},
      ((collapseU (b :: u)).head? = some '_') ↔ b = '_' := by
  intro b u
  induction u generalizing b with
  | nil => simp [collapseU]
  | cons d v ih =>
    unfold collapseU
    by_cases hbd : b = '_' ∧ d = '_'
    · rw [if_pos hbd]
      rw [ih]
      simp [hbd.1, hbd.2]
    · rw [if_neg hbd]
      simp

theorem chain'_collapseU : ∀ (l : List Char), (collapseU l).Chain' noDoubleU := by
  intro l
  induction l with
  | nil => simp [collapseU]
  | cons a t ih =>
    cases t with
    | nil => simp [collapseU]
    | cons b u =>
      unfold collapseU
      by_cases hab : a = '_' ∧ b = '_'
      · rwa [if_pos hab]
      · rw [if_neg hab]
        rw [List.chain'_cons']
        refine ⟨?_, ih⟩
        intro y hy
        unfold noDoubleU
        rintro ⟨rfl, rfl⟩
        exact hab ⟨rfl, head?_collapseU_underscore.mp hy⟩

theorem mem_removeTrailingU {c : Char} {l : List Char} (h : c ∈ removeTrailingU l) :
    c ∈ l := by
  unfold removeTrailingU at h
  cases hlast : l.getLast? with
  | none => rwa [hlast] at h
  | some x =>
    simp only [hlast] at h
    by_cases hx : x = '_'
    · rw [if_pos hx] at h
      exact (List.dropLast_sublist l).mem h
    · rwa [if_neg hx] at h

theorem chain'_removeTrailingU {l : List Char} (h : l.Chain' noDoubleU) :
    (removeTrailingU l).Chain' noDoubleU := by
  unfold removeTrailingU
  cases hlast : l.getLast? with
  | none => simp only [hlast]; exact h
  | some x =>
    simp only [hlast]
    by_cases hx : x = '_'
    · rw [if_pos hx]
      exact List.Chain'.init h
    · rwa [if_neg hx]

theorem getLast?_removeTrailingU {l : List Char} (h : l.Chain' noDoubleU) :
    ∀ c, (removeTrailingU l).getLast? = some c → c ≠ '_' := by
  intro c hc
  unfold removeTrailingU at hc
  cases hlast : l.getLast? with
  | none => simp [hlast] at hc
  | some x =>
    simp only [hlast] at hc
    by_cases hx : x = '_'
    · rw [if_pos hx] at hc
      subst hx
      -- l ends with two underscores: contradiction with the chain
      intro hcu
      subst hcu
      -- l = l.dropLast ++ [x]; l.dropLast ends in c = '_'
      have hne : l ≠ [] := by
        intro h0; rw [h0] at hlast; simp at hlast
      have hl : l = l.dropLast ++ ['_'] := by
        have := List.dropLast_append_getLast hne
        rw [List.getLast?_eq_getLast l hne] at hlast
        injection hlast with hlx
        rw [← hlx]
        exact this.symm
      have hd : l.dropLast = l.dropLast.dropLast ++ ['_'] := by
        have hne2 : l.dropLast ≠ [] := by
          intro h0; rw [h0] at hc; simp at hc
        have := List.dropLast_append_getLast hne2
        rw [List.getLast?_eq_getLast _ hne2] at hc
        injection hc with hcx
        rw [← hcx]
        exact this.symm
      rw [hl, hd] at h
      rw [List.append_assoc] at h
      rcases (List.chain'_append.mp h) with ⟨_, h2, _⟩
      rcases (List.chain'_append.mp h2) with ⟨_, _, h3⟩
      exact h3 '_' rfl '_' rfl ⟨rfl, rfl⟩
    · rw [if_neg hx] at hc
      rw [hlast] at hc
      injection hc with hcx
      subst hcx
      exact hx


theorem mem_removeSpecial {c : Char} {l : List Char} (h : c ∈ removeSpecial l) :
    isAlnumU c = true :=
  (List.mem_filter.mp h).2

theorem mem_prefixDigitCol {c : Char} {l : List Char} (h : c ∈ prefixDigitCol l) :
    c ∈ l ∨ c = 'c' ∨ c = 'o' ∨ c = 'l' ∨ c = '_' := by
  cases l with
  | nil => simp [prefixDigitCol] at h
  | cons a t =>
    simp only [prefixDigitCol] at h
    by_cases ha : isAsciiDigit a = true
    · rw [if_pos ha] at h
      simp only [List.mem_cons] at h
      rcases h with rfl | rfl | rfl | rfl | h
      · exact Or.inr (Or.inl rfl)
      · exact Or.inr (Or.inr (Or.inl rfl))
      · exact Or.inr (Or.inr (Or.inr (Or.inl rfl)))
      · exact Or.inr (Or.inr (Or.inr (Or.inr rfl)))
      · exact Or.inl (by simpa using h)
    · rw [if_neg ha] at h
      exact Or.inl h

theorem chain'_prefixDigitCol {l : List Char} (hch : l.Chain' noDoubleU)
    (halnum : ∀ c ∈ l, isAlnumU c = true) :
    (prefixDigitCol l).Chain' noDoubleU := by
  cases l with
  | nil => simp [prefixDigitCol]
  | cons a t =>
    simp only [prefixDigitCol]
    by_cases ha : isAsciiDigit a = true
    · rw [if_pos ha]
      have hane : a ≠ '_' := by
        intro hp
        rw [underscore_iff] at hp
        rw [isAsciiDigit_iff] at ha
        omega
      rw [List.chain'_cons', List.chain'_cons', List.chain'_cons', List.chain'_cons']
      refine ⟨?_, ?_, ?_, ?_, hch⟩ <;> intro y hy <;> unfold noDoubleU
      · simp at hy; subst hy; simp
      · simp at hy; subst hy; simp
      · simp at hy; subst hy; simp
      · simp at hy; subst hy; exact fun hp => hane hp.2
    · rwa [if_neg ha]

theorem head?_prefixDigitCol_not_digit {l : List Char} {c : Char}
    (h : (prefixDigitCol l).head? = some c) : isAsciiDigit c = false := by
  cases l with
  | nil => simp [prefixDigitCol] at h
  | cons a t =>
    simp only [prefixDigitCol] at h
    by_cases ha : isAsciiDigit a = true
    · rw [if_pos ha] at h
      simp at h
      rw [← h]
      decide
    · rw [if_neg ha] at h
      simp at h
      rw [← h]
      simpa using ha

theorem getLast?_prefixDigitCol {l : List Char} {c : Char}
    (h : (prefixDigitCol l).getLast? = some c) :
    l.getLast? = some c := by
  cases l with
  | nil => simp [prefixDigitCol] at h
  | cons a t =>
    simp only [prefixDigitCol] at h
    by_cases ha : isAsciiDigit a = true
    · rwa [if_pos ha] at h
    · rwa [if_neg ha] at h

theorem chain'_jsLowerL {l : List Char} (h : l.Chain' noDoubleU) :
    (jsLowerL l).Chain' noDoubleU := by
  unfold jsLowerL
  rw [List.chain'_map]
  refine List.Chain'.imp ?_ h
  intro a b hab
  unfold noDoubleU at hab ⊢
  rw [jsLowerChar_underscore_iff, jsLowerChar_underscore_iff]
  exact hab


/-- C10: for every raw column header, `sanitizeColumnName` (remove
parentheses, replace whitespace/hash/dash with underscores, drop remaining
special characters, collapse repeated underscores, drop a trailing
underscore, prefix a leading digit with `col_`, lower-case) returns a
string containing only lowercase letters, digits and underscores, with no
repeated underscores and no trailing underscore, never starting with a
digit; a leading digit is prefixed with `col_` — a different prefix than
the `t` the table-name sanitizer uses. -/
theorem C10_sanitizeColumnName_shape (s : String) :
    (∀ c ∈ (sanitizeColumnName s).data, isSanitizedColChar c = true) ∧
    (sanitizeColumnName s).data.Chain' noDoubleU ∧
    (∀ c, (sanitizeColumnName s).data.getLast? = some c → c ≠ '_') ∧
    (∀ c, (sanitizeColumnName s).data.head? = some c → isAsciiDigit c = false) ∧
    (∀ c, (removeTrailingU (collapseU (removeSpecial (replaceWsHashDash
        (removeParens s.data))))).head? = some c → isAsciiDigit c = true →
      (sanitizeColumnName s).data.take 4 = ['c', 'o', 'l', '_']) ∧
    (∀ c rest, isAsciiDigit c = true →
      prefixDigitCol (c :: rest) = 'c' :: 'o' :: 'l' :: '_' :: c :: rest ∧
      prefixDigitT (c :: rest) = 't' :: c :: rest) := by
  have hdata : (sanitizeColumnName s).data = sanitizeColumnNameL s.data := rfl
  set m2 := removeTrailingU (collapseU (removeSpecial (replaceWsHashDash
    (removeParens s.data)))) with hm2
  have hres : sanitizeColumnNameL s.data = jsLowerL (prefixDigitCol m2) := rfl
  have halnum2 : ∀ c ∈ m2, isAlnumU c = true := fun c hc =>
    mem_removeSpecial (mem_collapseU (mem_removeTrailingU hc))
  have hch1 : (collapseU (removeSpecial (replaceWsHashDash
      (removeParens s.data)))).Chain' noDoubleU := chain'_collapseU _
  have hch2 : m2.Chain' noDoubleU := chain'_removeTrailingU hch1
  refine ⟨?_, ?_, ?_, ?_, ?_, ?_⟩
  · -- alphabet
    intro c hc
    rw [hdata, hres] at hc
    unfold jsLowerL at hc
    obtain ⟨b, hb, rfl⟩ := List.mem_map.mp hc
    rcases mem_prefixDigitCol hb with hb' | rfl | rfl | rfl | rfl
    · have := goodOut_jsLowerChar (halnum2 b hb')
      unfold isSanitizedColChar
      simpa using this
    · decide
    · decide
    · decide
    · decide
  · -- no repeated underscores
    rw [hdata, hres]
    exact chain'_jsLowerL (chain'_prefixDigitCol hch2 halnum2)
  · -- no trailing underscore
    intro c hc
    rw [hdata, hres] at hc
    unfold jsLowerL at hc
    rw [List.getLast?_map] at hc
    cases hl : (prefixDigitCol m2).getLast? with
    | none => rw [hl] at hc; simp at hc
    | some b =>
      rw [hl] at hc
      simp at hc
      rw [← hc]
      have hb := getLast?_removeTrailingU hch1 b (getLast?_prefixDigitCol hl)
      intro hq
      exact hb (jsLowerChar_underscore_iff.mp hq)
  · -- never starts with a digit
    intro c hc
    rw [hdata, hres] at hc
    unfold jsLowerL at hc
    rw [List.head?_map] at hc
    cases hl : (prefixDigitCol m2).head? with
    | none => rw [hl] at hc; simp at hc
    | some b =>
      rw [hl] at hc
      simp at hc
      rw [← hc, isAsciiDigit_jsLowerChar]
      exact head?_prefixDigitCol_not_digit hl
  · -- a leading digit is prefixed with col_
    intro c hc hdig
    rw [hdata, hres]
    cases hm : m2 with
    | nil => rw [hm] at hc; simp at hc
    | cons a t =>
      rw [hm] at hc
      simp at hc
      subst hc
      simp only [prefixDigitCol, if_pos hdig, jsLowerL, List.map_cons, List.take]
      have h1 : jsLowerChar 'c' = 'c' := by decide
      have h2 : jsLowerChar 'o' = 'o' := by decide
      have h3 : jsLowerChar 'l' = 'l' := by decide
      have h4 : jsLowerChar '_' = '_' := by decide
      rw [h1, h2, h3, h4]
  · -- contrast between the two digit prefixes
    intro c rest hdig
    constructor
    · simp only [prefixDigitCol, if_pos hdig]
    · simp only [prefixDigitT, if_pos hdig]

/-- Witness for C10 at a concrete header with a leading digit. -/
theorem C10_sanitizeColumnName_shape_witness :
    (sanitizeColumnName "9 col (x)").data.take 4 = ['c', 'o', 'l', '_'] ∧
    sanitizeColumnName "9 col (x)" = "col_9_col_x" :=
  ⟨(C10_sanitizeColumnName_shape "9 col (x)").2.2.2.2.1 '9' (by decide) (by decide),
   by decide⟩


/-! ### Column type inference (`inferColumnType`, fileProcessor.ts)

The source iterates the parsed rows and inspects `row[key]`; the embedding
takes the projected list of cell values for the inspected column.  A
JavaScript number is idealized as an exact rational.  The numeric-string
test of the source is `!isNaN(Number(v)) && v.trim().match` of
`^-?\d*\.?\d+$`; a string matching that anchored pattern never parses to
NaN, so the conjunction is the regex test alone. -/

inductive JSVal where
  | vnull
  | vstr (s : String)
  | vnum (q : ℚ)
  | vbool (b : Bool)
  | vdate
deriving DecidableEq

def isAsciiAlpha (c : Char) : Bool := isAsciiUpper c || isAsciiLower c

/-- The anchored pattern `^-?\d*\.?\d+$`: an optional minus, then a body of
digits and at most one dot, non-empty and ending in a digit. -/
def numericShape (l : List Char) : Bool :=
  numericBody (if l.head? = some '-' then l.tail else l)
where numericBody (m : List Char) : Bool :=
  (m.all fun c => isAsciiDigit c || c = '.') &&
  (m.count '.' ≤ 1) &&
  (match m.getLast? with
    | some c => isAsciiDigit c
    | none => false)

def digitsToNat (m : List Char) : Nat :=
  m.foldl (fun acc c => acc * 10 + (c.toNat - 48)) 0

/-- Exact value of a decimal literal accepted by `numericShape`, written
with `mkRat` over a common power-of-ten denominator so that it reduces in
the kernel. -/
def parseDecimal (l : List Char) : ℚ :=
  let body := if l.head? = some '-' then l.tail else l
  let ip := body.takeWhile (· ≠ '.')
  let q : ℚ := match body.dropWhile (· ≠ '.') with
    | _ :: fp => mkRat (digitsToNat ip * 10 ^ fp.length + digitsToNat fp) (10 ^ fp.length)
    | [] => mkRat (digitsToNat ip) 1
  if l.head? = some '-' then -q else q

/-- `Number(s)` restricted to the strings the inference can feed it: `none`
models NaN. -/
def jsNumber (s : String) : Option ℚ :=
  let t := jsTrimL s.data
  if t = [] then some 0
  else if numericShape t then some (parseDecimal t) else none

/-- First scan of `inferColumnType`: accumulates `hasNumber`, `hasBoolean`,
`hasDate` and breaks out (returning the flags gathered so far) as soon as a
string containing a letter or failing the numeric pattern is seen; returns
`(hasString, hasNumber, hasBoolean, hasDate)`. -/
def firstPassAux : List JSVal → Bool → Bool → Bool → Bool × Bool × Bool × Bool
  | [], hN, hB, hD => (false, hN, hB, hD)
  | v :: rest, hN, hB, hD =>
    match v with
    | .vnull => firstPassAux rest hN hB hD
    | .vstr s =>
      let t := jsTrimL s.data
      if t = [] then firstPassAux rest hN hB hD
      else if t.any isAsciiAlpha then (true, hN, hB, hD)
      else if numericShape t then firstPassAux rest true hB hD
      else (true, hN, hB, hD)
    | .vnum _ => firstPassAux rest true hB hD
    | .vbool _ => firstPassAux rest hN true hD
    | .vdate => firstPassAux rest hN hB true

/-- Second scan of `inferColumnType`: `numValue` is `Number(v)` for strings
and the value itself otherwise; only values of number type are tested with
`Number.isInteger` (NaN fails it); booleans and dates are skipped. -/
def allIntegersPass : List JSVal → Bool
  | [] => true
  | v :: rest =>
    match v with
    | .vnull => allIntegersPass rest
    | .vstr s =>
      match jsNumber s with
      | some q => if q.den = 1 then allIntegersPass rest else false
      | none => false
    | .vnum q => if q.den = 1 then allIntegersPass rest else false
    | .vbool _ => allIntegersPass rest
    | .vdate => allIntegersPass rest

/-- `inferColumnType` (fileProcessor.ts): priority
String > Date > Boolean > Number, numbers refined by the all-integers scan,
default TEXT. -/
def inferColumnType (data : List JSVal) : String :=
  match firstPassAux data false false false with
  | (hS, hN, hB, hD) =>
    if hS then "TEXT"
    else if hD then "DATETIME"
    else if hB then "BOOLEAN"
    else if hN then (if allIntegersPass data then "INTEGER" else "FLOAT")
    else "TEXT"


/-- A cell value the numeric-column scenario of claim C3 allows: null,
whitespace-only or pattern-matching strings, and numbers. -/
def isNumericish : JSVal → Bool
  | .vnull => true
  | .vstr s => jsTrimL s.data = [] || numericShape (jsTrimL s.data)
  | .vnum _ => true
  | .vbool _ => false
  | .vdate => false

/-- A value that sets `hasNumber` in the first scan. -/
def isActualNumber : JSVal → Bool
  | .vstr s => !(jsTrimL s.data).isEmpty && numericShape (jsTrimL s.data)
  | .vnum _ => true
  | _ => false

/-- Integrality as the second scan tests it: `Number.isInteger (Number v)`
for strings, `Number.isInteger v` for numbers. -/
def valIntegral : JSVal → Bool
  | .vstr s =>
    match jsNumber s with
    | some q => q.den = 1
    | none => false
  | .vnum q => q.den = 1
  | _ => true

theorem numericBody_no_alpha {m : List Char} (hm : numericShape.numericBody m = true) :
    ∀ d ∈ m, isAsciiAlpha d = false := by
  intro d hd
  simp only [numericShape.numericBody, Bool.and_eq_true] at hm
  obtain ⟨⟨hall, _⟩, _⟩ := hm
  have hdm := List.all_eq_true.mp hall d hd
  rcases (Bool.or_eq_true _ _) ▸ hdm with hdig | hdot
  · rw [isAsciiDigit_iff] at hdig
    unfold isAsciiAlpha
    rw [Bool.eq_false_iff]
    intro hal
    rcases (Bool.or_eq_true _ _) ▸ hal with hu | hl
    · rw [isAsciiUpper_iff] at hu; omega
    · rw [isAsciiLower_iff] at hl; omega
  · have hd46 : d = '.' := by simpa using hdot
    subst hd46
    decide

theorem numericShape_no_alpha {t : List Char} (h : numericShape t = true) :
    t.any isAsciiAlpha = false := by
  rw [Bool.eq_false_iff]
  intro hany
  obtain ⟨c, hc, hca⟩ := List.any_eq_true.mp hany
  unfold numericShape at h
  by_cases hneg : t.head? = some '-'
  · rw [if_pos hneg] at h
    cases t with
    | nil => simp at hneg
    | cons x r =>
      injection hneg with hx
      subst hx
      rcases List.mem_cons.mp hc with rfl | hc'
      · exact absurd hca (by decide)
      · rw [numericBody_no_alpha h c hc'] at hca
        exact Bool.false_ne_true hca
  · rw [if_neg hneg] at h
    rw [numericBody_no_alpha h c hc] at hca
    exact Bool.false_ne_true hca

theorem firstPassAux_numericish :
    ∀ {data : List JSVal} (hN hB hD : Bool),
      (∀ v ∈ data, isNumericish v = true) →
      firstPassAux data hN hB hD = (false, hN || data.any isActualNumber, hB, hD) := by
  intro data
  induction data with
  | nil => intro hN hB hD _; simp [firstPassAux]
  | cons v rest ih =>
    intro hN hB hD hall
    have hv := hall v (List.mem_cons_self _ _)
    have hrest : ∀ w ∈ rest, isNumericish w = true :=
      fun w hw => hall w (List.mem_cons_of_mem _ hw)
    cases v with
    | vnull =>
      simp only [firstPassAux]
      rw [ih hN hB hD hrest]
      simp [List.any_cons, isActualNumber]
    | vstr s =>
      simp only [isNumericish] at hv
      by_cases ht : jsTrimL s.data = []
      · simp only [firstPassAux, ht, if_true, if_pos]
        rw [ih hN hB hD hrest]
        have han : isActualNumber (JSVal.vstr s) = false := by
          simp [isActualNumber, ht]
        simp [List.any_cons, han]
      · have hshape : numericShape (jsTrimL s.data) = true := by
          rcases (Bool.or_eq_true _ _) ▸ hv with h0 | h1
          · exact absurd (by simpa using h0) ht
          · exact h1
        have hnoalpha := numericShape_no_alpha hshape
        simp only [firstPassAux, ht, if_false, hnoalpha, hshape, if_true,
          Bool.false_eq_true, Bool.true_eq_false]
        rw [ih true hB hD hrest]
        have han : isActualNumber (JSVal.vstr s) = true := by
          simp only [isActualNumber, hshape, Bool.and_true]
          simp [ht]
        simp [List.any_cons, han]
    | vnum q =>
      simp only [firstPassAux]
      rw [ih true hB hD hrest]
      simp [List.any_cons, isActualNumber]
    | vbool b => exact absurd hv (by simp [isNumericish])
    | vdate => exact absurd hv (by simp [isNumericish])

theorem allIntegersPass_numericish :
    ∀ {data : List JSVal},
      (∀ v ∈ data, isNumericish v = true) →
      allIntegersPass data = data.all valIntegral := by
  intro data
  induction data with
  | nil => intro _; rfl
  | cons v rest ih =>
    intro hall
    have hv := hall v (List.mem_cons_self _ _)
    have hrest : ∀ w ∈ rest, isNumericish w = true :=
      fun w hw => hall w (List.mem_cons_of_mem _ hw)
    cases v with
    | vnull =>
      simp only [allIntegersPass]
      rw [ih hrest]
      simp [List.all_cons, valIntegral]
    | vstr s =>
      have hsome : ∃ q, jsNumber s = some q := by
        simp only [isNumericish] at hv
        unfold jsNumber
        by_cases ht : jsTrimL s.data = []
        · exact ⟨0, by simp [ht]⟩
        · have hshape : numericShape (jsTrimL s.data) = true := by
            rcases (Bool.or_eq_true _ _) ▸ hv with h0 | h1
            · exact absurd (by simpa using h0) ht
            · exact h1
          exact ⟨parseDecimal (jsTrimL s.data), by simp [ht, hshape]⟩
      obtain ⟨q, hq⟩ := hsome
      simp only [allIntegersPass, hq, List.all_cons]
      have hvi : valIntegral (JSVal.vstr s) = decide (q.den = 1) := by
        simp [valIntegral, hq]
      rw [hvi]
      by_cases hden : q.den = 1
      · simp [hden, ih hrest]
      · simp [hden]
    | vnum q =>
      simp only [allIntegersPass, List.all_cons]
      have hvi : valIntegral (JSVal.vnum q) = decide (q.den = 1) := by
        simp [valIntegral]
      rw [hvi]
      by_cases hden : q.den = 1
      · simp [hden, ih hrest]
      · simp [hden]
    | vbool b => exact absurd hv (by simp [isNumericish])
    | vdate => exact absurd hv (by simp [isNumericish])


/-- C3 as stated is false on the code: a column of the purely numeric
strings `"5.0"` and `"3"` is inferred INTEGER, not FLOAT, because
`Number("5.0")` is the integer 5 and `Number.isInteger` accepts it. -/
theorem C3_inferColumnType_counterexample :
    inferColumnType [JSVal.vstr "5.0", JSVal.vstr "3"] = "INTEGER" ∧
    inferColumnType [JSVal.vstr "5.0", JSVal.vstr "3"] ≠ "FLOAT" := by
  constructor
  · decide
  · decide

/-- C3 (amended): for a column whose cells are null, whitespace-only, or
purely numeric (numeric-pattern strings or numbers), with at least one
numeric cell, `inferColumnType` returns INTEGER exactly when every cell
parses to an integral number and FLOAT otherwise — `"5.0"` parses to the
integral 5, so a non-zero fractional part is what forces FLOAT. -/
theorem C3_inferColumnType_numeric (data : List JSVal)
    (hall : ∀ v ∈ data, isNumericish v = true)
    (hsome : ∃ v ∈ data, isActualNumber v = true) :
    inferColumnType data = if data.all valIntegral then "INTEGER" else "FLOAT" := by
  unfold inferColumnType
  rw [firstPassAux_numericish false false false hall]
  have hany : data.any isActualNumber = true := List.any_eq_true.mpr hsome
  rw [hany, allIntegersPass_numericish hall]
  simp

/-- Witness for the amended C3 at the three example columns. -/
theorem C3_inferColumnType_numeric_witness :
    inferColumnType [JSVal.vstr "5.0", JSVal.vstr "3"] = "INTEGER" ∧
    inferColumnType [JSVal.vstr "5", JSVal.vstr "10", JSVal.vstr "7"] = "INTEGER" ∧
    inferColumnType [JSVal.vstr "5.5", JSVal.vstr "3"] = "FLOAT" := by
  refine ⟨?_, ?_, ?_⟩
  · have h := C3_inferColumnType_numeric [JSVal.vstr "5.0", JSVal.vstr "3"]
      (by decide) ⟨JSVal.vstr "5.0", by decide, by decide⟩
    rwa [if_pos (by decide)] at h
  · have h := C3_inferColumnType_numeric [JSVal.vstr "5", JSVal.vstr "10", JSVal.vstr "7"]
      (by decide) ⟨JSVal.vstr "5", by decide, by decide⟩
    rwa [if_pos (by decide)] at h
  · have h := C3_inferColumnType_numeric [JSVal.vstr "5.5", JSVal.vstr "3"]
      (by decide) ⟨JSVal.vstr "5.5", by decide, by decide⟩
    rwa [if_neg (by decide)] at h


/-! ### SELECT * correction round-trip (`generateSQLQuery`,
ollamaService.ts lines 66-85)

The LLM round-trips are abstracted: `cleanedResponse` is the extracted
first reply, `fixedQuery` is what one corrective round-trip would return
(extracted); the embedding returns the chosen query and the number of
corrective round-trips issued. -/

/-- The `\bSELECT\s+\*` test with the `i` flag. -/
def selectStarRE : RGX :=
  seqR [.wordB, litS "SELECT" true, .rep jsIsSpace 1 none true, litS "*" false]

def hasSelectStar (s : String) : Bool :=
  (rsearch selectStarRE s.data).isSome

/-- The retry block: when the extracted query matches `\bSELECT\s+\*`, one
corrective request is sent; its extracted reply is kept only if it no
longer matches, otherwise the original is returned; without the match no
request is sent. -/
def generateSQLQueryRetry (cleanedResponse fixedQuery : String) : String × Nat :=
  if hasSelectStar cleanedResponse then
    if hasSelectStar fixedQuery then (cleanedResponse, 1) else (fixedQuery, 1)
  else (cleanedResponse, 0)

/-- C5: whenever the extracted query contains `SELECT *`, exactly one
corrective round-trip is issued; the corrected query is returned only when
it no longer contains `SELECT *`, otherwise the original is kept; never
more than one corrective retry. -/
theorem C5_generateSQLQuery_one_retry (c f : String) :
    ((generateSQLQueryRetry c f).2 ≤ 1) ∧
    (hasSelectStar c = false → generateSQLQueryRetry c f = (c, 0)) ∧
    (hasSelectStar c = true → (generateSQLQueryRetry c f).2 = 1 ∧
      (hasSelectStar f = false → (generateSQLQueryRetry c f).1 = f) ∧
      (hasSelectStar f = true → (generateSQLQueryRetry c f).1 = c)) := by
  unfold generateSQLQueryRetry
  by_cases hc : hasSelectStar c = true
  · by_cases hf : hasSelectStar f = true <;> simp [hc, hf]
  · rw [Bool.not_eq_true] at hc
    simp [hc]

/-- Witness for C5 on concrete queries. -/
theorem C5_generateSQLQuery_one_retry_witness :
    hasSelectStar "SELECT * FROM t;" = true ∧
    generateSQLQueryRetry "SELECT * FROM t;" "SELECT a FROM t;" = ("SELECT a FROM t;", 1) ∧
    generateSQLQueryRetry "SELECT a FROM t;" "ignored" = ("SELECT a FROM t;", 0) := by
  refine ⟨by decide, ?_, ?_⟩
  · have h := (C5_generateSQLQuery_one_retry "SELECT * FROM t;" "SELECT a FROM t;").2.2
      (by decide)
    exact Prod.ext (h.2.1 (by decide)) h.1
  · exact (C5_generateSQLQuery_one_retry "SELECT a FROM t;" "ignored").2.1 (by decide)

/-! ### Ingestion storage (`storeProcessedData`, fileProcessor.ts)

State: the set of backing tables and the set of catalog (DataSource)
records, as name lists.  Each external call is given a boolean outcome;
the embedding follows the source's sequencing and its absence of any
rollback. -/

structure IngestState where
  tables : List String
  catalog : List String
deriving DecidableEq, Repr

structure IngestOutcome where
  state : IngestState
  error : Option String
deriving DecidableEq, Repr

/-- `storeProcessedData`: verify the connection, sync the DataSource model,
validate the input, sanitize the table name, define and sync the dynamic
model (creating the backing table), bulk-insert the rows, then write the
catalog record; every failure is rethrown by the surrounding catch without
any compensation. -/
def storeProcessedData (authOk dsSyncOk schemaValid columnsValid tableSyncOk
    bulkOk dsCreateOk : Bool) (rawTableName : String) (st : IngestState) :
    IngestOutcome :=
  if ¬authOk then
    ⟨st, some "Database connection failed. Please ensure your database is running."⟩
  else if ¬dsSyncOk then ⟨st, some "Failed to prepare database for storing data"⟩
  else if ¬schemaValid then ⟨st, some "Invalid processed data format"⟩
  else if ¬columnsValid then ⟨st, some "Invalid column definition"⟩
  else
    let name := sanitizeIdentifier rawTableName
    if ¬tableSyncOk then ⟨st, some "table sync failed"⟩
    else
      let st1 : IngestState := ⟨if st.tables.contains name then st.tables
        else st.tables ++ [name], st.catalog⟩
      if ¬bulkOk then ⟨st1, some "bulk create failed"⟩
      else if ¬dsCreateOk then ⟨st1, some "DataSource.create failed"⟩
      else ⟨⟨st1.tables, st1.catalog ++ [name]⟩, none⟩

/-- C6 as stated is false on the code: with the table created and loaded
and the catalog write failing, the error propagates while the backing
table is retained and no catalog record exists — an orphaned table. -/
theorem C6_storeProcessedData_counterexample :
    storeProcessedData true true true true true true false "orders.csv" ⟨[], []⟩ =
      ⟨⟨["orders"], []⟩, some "DataSource.create failed"⟩ := by
  decide

/-- C6 (amended): storage is sequential with no rollback.  A catalog
record is written only when every step succeeded (so no orphaned catalog
entry is possible), and on full success both the table and the record
exist; but a bulk-load or catalog-write failure after table creation
leaves the backing table behind with no catalog record. -/
theorem C6_storeProcessedData_half_atomic (authOk dsSyncOk schemaValid
    columnsValid tableSyncOk bulkOk dsCreateOk : Bool) (raw : String)
    (st : IngestState) :
    (let r := storeProcessedData authOk dsSyncOk schemaValid columnsValid
        tableSyncOk bulkOk dsCreateOk raw st
     (r.error = none →
        r.state.tables.contains (sanitizeIdentifier raw) = true ∧
        r.state.catalog = st.catalog ++ [sanitizeIdentifier raw]) ∧
     (r.error.isSome = true → r.state.catalog = st.catalog) ∧
     (authOk = true → dsSyncOk = true → schemaValid = true →
      columnsValid = true → tableSyncOk = true →
      (bulkOk = false ∨ dsCreateOk = false) →
        r.error.isSome = true ∧
        r.state.tables.contains (sanitizeIdentifier raw) = true ∧
        r.state.catalog = st.catalog)) := by
  unfold storeProcessedData
  by_cases ha : authOk = true <;> by_cases hd : dsSyncOk = true <;>
    by_cases hs : schemaValid = true <;> by_cases hc : columnsValid = true <;>
    by_cases ht : tableSyncOk = true <;> by_cases hb : bulkOk = true <;>
    by_cases hk : dsCreateOk = true <;>
    simp_all [List.contains_eq_any_beq, List.elem_eq_mem] <;> (try (split <;> simp_all))

/-- Witness for the amended C6: a bulk-load failure after table creation. -/
theorem C6_storeProcessedData_half_atomic_witness :
    (storeProcessedData true true true true true false true "orders.csv"
      ⟨[], []⟩).error.isSome = true ∧
    (storeProcessedData true true true true true false true "orders.csv"
      ⟨[], []⟩).state.tables.contains (sanitizeIdentifier "orders.csv") = true ∧
    (storeProcessedData true true true true true false true "orders.csv"
      ⟨[], []⟩).state.catalog = [] := by
  have h := (C6_storeProcessedData_half_atomic true true true true true false true
    "orders.csv" ⟨[], []⟩).2.2 rfl rfl rfl rfl rfl (Or.inl rfl)
  exact ⟨h.1, h.2.1, h.2.2⟩

/-! ### Connection test and MySQL connect
(`DatabaseConnectionService.testConnection`, `MySQLConnector.connect`)

The engine-level call (`mysql.createConnection`) is an oracle returning
either success or the engine's error message. -/

/-- `MySQLConnector.connect`: a missing configuration field throws inside
the try block; every failure is caught and rethrown as a single generic
`Error` whose message is the fixed prefix plus the underlying message. -/
def mysqlConnect (configComplete : Bool) (engine : Except String Unit) :
    Except String Unit :=
  if ¬configComplete then
    .error "Failed to connect to MySQL database: Missing required connection configuration"
  else
    match engine with
    | .ok () => .ok ()
    | .error m => .error ("Failed to connect to MySQL database: " ++ m)

/-- `DatabaseConnectionService.testConnection`: connect then disconnect
inside a try; any caught error yields `false`, success yields `true`. -/
def testConnection (connectRes disconnectRes : Except String Unit) : Bool :=
  match connectRes with
  | .error _ => false
  | .ok () =>
    match disconnectRes with
    | .error _ => false
    | .ok () => true

/-- C7 as stated is false on the code: an unreachable host and a rejected
password produce errors of the identical single shape — one generic
`Error` with the fixed prefix — with no authentication / network /
unknown-database subtyping anywhere, and `testConnection` returns the
boolean `false`, not a classified `ConnectionError` value. -/
theorem C7_testConnection_counterexample :
    mysqlConnect true (.error "connect ECONNREFUSED 192.0.2.7:3306") =
      .error "Failed to connect to MySQL database: connect ECONNREFUSED 192.0.2.7:3306" ∧
    mysqlConnect true (.error "Access denied for user 'root'@'localhost'") =
      .error "Failed to connect to MySQL database: Access denied for user 'root'@'localhost'" ∧
    testConnection (mysqlConnect true
      (.error "connect ECONNREFUSED 192.0.2.7:3306")) (.ok ()) = false := by
  refine ⟨rfl, rfl, rfl⟩

/-- C7 (amended): every failing connection attempt is caught — the test
returns `false` rather than letting the exception escape — and the wrapped
error preserves the underlying engine message behind the one fixed generic
prefix, identically for every failure class. -/
theorem C7_connection_errors_generic (m : String) (dis : Except String Unit) :
    testConnection (mysqlConnect true (.error m)) dis = false ∧
    mysqlConnect true (.error m) =
      .error ("Failed to connect to MySQL database: " ++ m) ∧
    testConnection (.ok ()) (.ok ()) = true := by
  refine ⟨rfl, rfl, rfl⟩



/-! ### Semicolon handling at the end of `extractSQLQuery`
(ollamaService.ts lines 483-511)

The stage receives the cleaned response (the query after fence stripping
and quoting fixes), splits on `;` keeping only the first part when any
semicolon exists, strips trailing explanatory blocks, and guarantees a
terminating semicolon. -/

/-- `String.prototype.split(';')`. -/
def splitOnSemi : List Char → List (List Char)
  | [] => [[]]
  | c :: rest =>
    match splitOnSemi rest with
    | h :: t => if c = ';' then [] :: h :: t else (c :: h) :: t
    | [] => [[c]]

/-- Truncate at the earliest position whose suffix satisfies `p` (each
explanation pattern is anchored to the end of the string, so its
replacement by the empty string is a truncation). -/
def findTruncAux (p : List Char → Bool) : List Char → Nat → Option Nat
  | [], _ => none
  | c :: rest, i =>
    if p (c :: rest) then some i else findTruncAux p rest (i + 1)

def truncAt (p : List Char → Bool) (l : List Char) : List Char :=
  match findTruncAux p l 0 with
  | some i => l.take i
  | none => l

/-- `\n\s*\n[\s\S]*$`: a newline followed, after whitespace, by another
newline (any newline inside the whitespace run witnesses the pattern). -/
def blankLineMarker : List Char → Bool
  | '\n' :: t => (t.takeWhile jsIsSpace).contains '\n'
  | _ => false

def startsWithCI (pat : String) (l : List Char) : Bool :=
  litHere pat.data true l

def startsWithCS (pat : String) (l : List Char) : Bool :=
  litHere pat.data false l

/-- The six explanation patterns of the source, applied in order: blank
line, `--` comment, `/*` comment, and the three lead-in phrases (the last
three case-insensitive). -/
def stripExplanations (l : List Char) : List Char :=
  truncAt (startsWithCI "\nHere")
    (truncAt (startsWithCI "\nThe above")
      (truncAt (startsWithCI "\nThis query")
        (truncAt (startsWithCS "\n/*")
          (truncAt (startsWithCS "\n--")
            (truncAt blankLineMarker l)))))

/-- Strip the explanation blocks, then append a semicolon unless the
trimmed result already ends with one. -/
def finalizeTail (cq : List Char) : List Char :=
  let cq1 := stripExplanations cq
  if (jsTrimL cq1).getLast? = some ';' then cq1 else jsTrimL cq1 ++ [';']

/-- Lines 484-508: keep only the first `;`-separated part (re-terminated)
when a semicolon exists, strip trailing explanation blocks, then append a
semicolon unless the trimmed result already ends with one. -/
def extractCore (l : List Char) : List Char :=
  finalizeTail (if 1 < (splitOnSemi l).length then
    jsTrimL ((splitOnSemi l).headD []) ++ [';'] else l)

def extractSQLFinalize (s : String) : String :=
  ⟨extractCore s.data⟩


theorem truncAt_take (p : List Char → Bool) (l : List Char) :
    ∃ n, truncAt p l = l.take n := by
  unfold truncAt
  cases h : findTruncAux p l 0 with
  | none => exact ⟨l.length, (List.take_length l).symm⟩
  | some i => exact ⟨i, rfl⟩

theorem stripExplanations_take (l : List Char) :
    ∃ n, stripExplanations l = l.take n := by
  unfold stripExplanations
  obtain ⟨n1, h1⟩ := truncAt_take blankLineMarker l
  rw [h1]
  obtain ⟨n2, h2⟩ := truncAt_take (startsWithCS "\n--") (l.take n1)
  rw [h2, List.take_take]
  obtain ⟨n3, h3⟩ := truncAt_take (startsWithCS "\n/*") (l.take (n2 ⊓ n1))
  rw [h3, List.take_take]
  obtain ⟨n4, h4⟩ := truncAt_take (startsWithCI "\nThis query") (l.take (n3 ⊓ (n2 ⊓ n1)))
  rw [h4, List.take_take]
  obtain ⟨n5, h5⟩ := truncAt_take (startsWithCI "\nThe above") (l.take (n4 ⊓ (n3 ⊓ (n2 ⊓ n1))))
  rw [h5, List.take_take]
  obtain ⟨n6, h6⟩ := truncAt_take (startsWithCI "\nHere")
    (l.take (n5 ⊓ (n4 ⊓ (n3 ⊓ (n2 ⊓ n1)))))
  rw [h6, List.take_take]
  exact ⟨_, rfl⟩

theorem mem_jsTrimL {c : Char} {l : List Char} (h : c ∈ jsTrimL l) : c ∈ l := by
  unfold jsTrimL at h
  rw [List.mem_reverse] at h
  have h2 := (List.dropWhile_sublist jsIsSpace).mem h
  rw [List.mem_reverse] at h2
  exact (List.dropWhile_sublist jsIsSpace).mem h2

theorem getLast?_jsTrimL {l : List Char} {c : Char} (h : l.getLast? = some c)
    (hc : jsIsSpace c = false) : (jsTrimL l).getLast? = some c := by
  unfold jsTrimL
  set y := l.dropWhile jsIsSpace with hy
  have hyne : y ≠ [] := by
    intro h0
    have hls : l = l.takeWhile jsIsSpace := by
      conv_lhs => rw [← List.takeWhile_append_dropWhile jsIsSpace l]
      rw [← hy, h0, List.append_nil]
    have hcl : c ∈ l := List.mem_of_mem_getLast? h
    rw [hls] at hcl
    rw [List.mem_takeWhile_imp hcl] at hc
    exact Bool.noConfusion hc
  have hyl : y.getLast? = some c := by
    have happ : l.takeWhile jsIsSpace ++ y = l := by
      rw [hy]
      exact List.takeWhile_append_dropWhile jsIsSpace l
    rw [← happ] at h
    rwa [List.getLast?_append_of_ne_nil _ hyne] at h
  have hrev : y.reverse.head? = some c := by
    rw [List.head?_reverse]
    exact hyl
  have hdw : y.reverse.dropWhile jsIsSpace = y.reverse := by
    cases hyr : y.reverse with
    | nil => rfl
    | cons a r =>
      rw [hyr] at hrev
      injection hrev with ha
      subst ha
      rw [List.dropWhile_cons_of_neg]
      simp [hc]
  rw [hdw, List.reverse_reverse]
  exact hyl

theorem noSemi_finalizeTail_branch {m : List Char} (hm : ';' ∉ m) :
    (if (jsTrimL m).getLast? = some ';' then m else jsTrimL m ++ [';']).getLast?
        = some ';' ∧
    (if (jsTrimL m).getLast? = some ';' then m else jsTrimL m ++ [';']).count ';' = 1 := by
  have hnm : ';' ∉ jsTrimL m := fun hmem => hm (mem_jsTrimL hmem)
  have hne : (jsTrimL m).getLast? ≠ some ';' := by
    intro hl
    exact hnm (List.mem_of_mem_getLast? hl)
  rw [if_neg hne]
  constructor
  · exact List.getLast?_concat _
  · rw [List.count_append]
    rw [List.count_eq_zero.mpr hnm]
    rfl

theorem finalizeTail_shape (cq : List Char)
    (h : (∃ w, cq = w ++ [';'] ∧ ';' ∉ w) ∨ ';' ∉ cq) :
    (finalizeTail cq).getLast? = some ';' ∧ (finalizeTail cq).count ';' = 1 := by
  unfold finalizeTail
  obtain ⟨n, hn⟩ := stripExplanations_take cq
  simp only [hn]
  rcases h with ⟨w, rfl, hw⟩ | hnc
  · by_cases hlen : (w ++ [';']).length ≤ n
    · rw [List.take_of_length_le hlen]
      have hlast : (w ++ [';']).getLast? = some ';' := List.getLast?_concat _
      have htr := getLast?_jsTrimL hlast (by decide)
      rw [if_pos htr]
      refine ⟨hlast, ?_⟩
      rw [List.count_append, List.count_eq_zero.mpr hw]
      rfl
    · have hn' : n ≤ w.length := by
        simp only [List.length_append, List.length_cons, List.length_nil] at hlen
        omega
      rw [List.take_append_of_le_length hn']
      have hns : ';' ∉ w.take n := fun hmem => hw ((List.take_sublist n w).mem hmem)
      exact noSemi_finalizeTail_branch hns
  · have hns : ';' ∉ cq.take n := fun hmem => hnc ((List.take_sublist n cq).mem hmem)
    exact noSemi_finalizeTail_branch hns


theorem splitOnSemi_ne_nil (l : List Char) : splitOnSemi l ≠ [] := by
  cases l with
  | nil => simp [splitOnSemi]
  | cons c rest =>
    unfold splitOnSemi
    cases h : splitOnSemi rest with
    | nil => simp
    | cons hd tl =>
      by_cases hcs : c = ';' <;> simp [hcs]

theorem splitOnSemi_head (l : List Char) :
    (splitOnSemi l).headD [] = l.takeWhile (· ≠ ';') := by
  induction l with
  | nil => rfl
  | cons c rest ih =>
    unfold splitOnSemi
    cases h : splitOnSemi rest with
    | nil => exact absurd h (splitOnSemi_ne_nil rest)
    | cons hd tl =>
      rw [h] at ih
      by_cases hcs : c = ';'
      · subst hcs
        simp [List.takeWhile_cons]
      · show ((if c = ';' then [] :: hd :: tl else (c :: hd) :: tl)).headD [] =
          List.takeWhile (fun x => decide (x ≠ ';')) (c :: rest)
        rw [if_neg hcs]
        rw [List.takeWhile_cons_of_pos (by simp [hcs])]
        rw [← ih]
        rfl

theorem splitOnSemi_length (l : List Char) :
    1 < (splitOnSemi l).length ↔ ';' ∈ l := by
  induction l with
  | nil => simp [splitOnSemi]
  | cons c rest ih =>
    unfold splitOnSemi
    cases h : splitOnSemi rest with
    | nil => exact absurd h (splitOnSemi_ne_nil rest)
    | cons hd tl =>
      rw [h] at ih
      by_cases hcs : c = ';'
      · subst hcs
        simp
      · simp only [if_neg hcs, List.length_cons, List.mem_cons]
        simp only [List.length_cons] at ih
        constructor
        · intro hl
          exact Or.inr (ih.mp hl)
        · intro hor
          rcases hor with heq | hmem
          · exact absurd heq.symm hcs
          · exact ih.mpr hmem

set_option maxHeartbeats 1600000 in
/-- C8: for every cleaned LLM response entering the semicolon stage, the
result ends with a semicolon, contains exactly one semicolon, and depends
only on the text before the first semicolon of the input when the input
contains one (everything after it is discarded). -/
theorem C8_extractSQLQuery_semicolon (s : String) :
    (extractSQLFinalize s).data.getLast? = some ';' ∧
    (extractSQLFinalize s).data.count ';' = 1 ∧
    (';' ∈ s.data →
      extractSQLFinalize s = extractSQLFinalize ⟨s.data.takeWhile (· ≠ ';') ++ [';']⟩) := by
  have hbranch : ∀ (t : String), (extractSQLFinalize t).data = extractCore t.data :=
    fun t => rfl
  have hmain : ∀ (t : String), (extractSQLFinalize t).data.getLast? = some ';' ∧
      (extractSQLFinalize t).data.count ';' = 1 := by
    intro t
    rw [hbranch t]
    unfold extractCore
    by_cases hin : ';' ∈ t.data
    · rw [if_pos ((splitOnSemi_length t.data).mpr hin)]
      refine finalizeTail_shape _ (Or.inl ⟨jsTrimL ((splitOnSemi t.data).headD []), rfl, ?_⟩)
      intro hmem
      have := mem_jsTrimL hmem
      rw [splitOnSemi_head] at this
      have := List.mem_takeWhile_imp this
      simp at this
    · rw [if_neg (fun hgt => hin ((splitOnSemi_length t.data).mp hgt))]
      exact finalizeTail_shape _ (Or.inr hin)
  refine ⟨(hmain s).1, (hmain s).2, ?_⟩
  intro hin
  have h1 : (extractSQLFinalize s).data =
      finalizeTail (jsTrimL (s.data.takeWhile (· ≠ ';')) ++ [';']) := by
    rw [hbranch s]
    unfold extractCore
    rw [if_pos ((splitOnSemi_length s.data).mpr hin), splitOnSemi_head]
  have hw : ∀ c ∈ s.data.takeWhile (· ≠ ';'), (c ≠ ';' : Bool) = true := by
    intro c hc
    have := List.mem_takeWhile_imp hc
    simpa using this
  have htw : (s.data.takeWhile (· ≠ ';') ++ [';']).takeWhile (· ≠ ';') =
      s.data.takeWhile (· ≠ ';') := by
    have : ∀ (w : List Char), (∀ c ∈ w, c ≠ ';') →
        (w ++ [';']).takeWhile (fun c => decide (c ≠ ';')) = w := by
      intro w
      induction w with
      | nil =>
        intro _
        rw [List.nil_append, List.takeWhile_cons_of_neg (by simp)]
      | cons a r ihr =>
        intro hall
        have ha := hall a (List.mem_cons_self _ _)
        rw [List.cons_append, List.takeWhile_cons_of_pos (by simp [ha])]
        rw [ihr (fun c hc => hall c (List.mem_cons_of_mem _ hc))]
    refine this _ ?_
    intro c hc
    have := List.mem_takeWhile_imp hc
    simpa using this
  have hin2 : ';' ∈ s.data.takeWhile (· ≠ ';') ++ [';'] := by
    simp
  have h2 : (extractSQLFinalize (⟨s.data.takeWhile (· ≠ ';') ++ [';']⟩ : String)).data =
      finalizeTail (jsTrimL (s.data.takeWhile (· ≠ ';')) ++ [';']) := by
    rw [hbranch ⟨s.data.takeWhile (· ≠ ';') ++ [';']⟩]
    unfold extractCore
    have hlen : 1 < (splitOnSemi (s.data.takeWhile (· ≠ ';') ++ [';'])).length :=
      (splitOnSemi_length _).mpr hin2
    rw [if_pos hlen, splitOnSemi_head]
    rw [htw]
  have := h1.trans h2.symm
  cases hres : extractSQLFinalize s with
  | mk d1 =>
    cases hres2 : extractSQLFinalize ⟨s.data.takeWhile (· ≠ ';') ++ [';']⟩ with
    | mk d2 =>
      rw [hres, hres2] at this
      simp at this
      rw [this]


/-- Witness for C8 on a response with explanatory text after the query. -/
theorem C8_extractSQLQuery_semicolon_witness :
    extractSQLFinalize "SELECT a FROM t; this explains the query" = "SELECT a FROM t;" ∧
    extractSQLFinalize "SELECT a FROM t; this explains the query" =
      extractSQLFinalize "SELECT a FROM t;" ∧
    (extractSQLFinalize "SELECT a FROM t; this explains the query").data.count ';' = 1 := by
  have h := C8_extractSQLQuery_semicolon "SELECT a FROM t; this explains the query"
  refine ⟨by decide, ?_, h.2.1⟩
  have h3 := h.2.2 (by decide)
  rw [h3]
  rfl


/-! ### GROUP BY repair (`fixGroupByIssues`, documentService.ts)

Each regular expression of the source is transliterated into the matcher's
syntax; character classes name code points where a character literal would
be awkward (96 is the backtick). -/

def clsC (c : Char) : RGX := .cls (· = c)

def backtickOpt : RGX := .rep (fun c => c.toNat = 96) 0 (some 1) true

def wordRun : RGX := .rep isWordChar 1 none true

def spaceRun0 : RGX := .rep jsIsSpace 0 none true

def spaceRun1 : RGX := .rep jsIsSpace 1 none true

/-- The aggregate test `\b(MIN|MAX|AVG|SUM|COUNT)\s*\([^)]+\)` (flag `i`). -/
def aggRE : RGX :=
  seqR [.wordB,
    .grp 1 (altsR [litS "MIN" true, litS "MAX" true, litS "AVG" true,
      litS "SUM" true, litS "COUNT" true]),
    spaceRun0, litS "(" false,
    .rep (fun c => c.toNat ≠ 41) 1 none true, litS ")" false]

/-- `\bGROUP\s+BY\b` (flag `i`). -/
def groupByWordRE : RGX :=
  seqR [.wordB, litS "GROUP" true, spaceRun1, litS "BY" true, .wordB]

/-- `\bSELECT\s+([^;)]*?)\s+FROM\b` (flag `i`): the capture is a lazy run
of characters other than semicolon and closing parenthesis. -/
def selectFromRE : RGX :=
  seqR [.wordB, litS "SELECT" true, spaceRun1,
    .grp 1 (.rep (fun c => ¬(c = ';' ∨ c = ')')) 0 none false),
    spaceRun1, litS "FROM" true, .wordB]

/-- `\bFROM\s+[`]?([a-zA-Z0-9_]+)[`]?` (flag `i`). -/
def fromTableRE : RGX :=
  seqR [.wordB, litS "FROM" true, spaceRun1, backtickOpt, .grp 1 wordRun, backtickOpt]

/-- The aggregate-branch column pattern (line 615):
`\b[`]?([a-zA-Z0-9_]+)[`]?(?!\s*\(|\s+AS\s+)\b(?![^(]*\))` (flags `gi`). -/
def columnAggRE : RGX :=
  seqR [.wordB, backtickOpt, .grp 1 wordRun, backtickOpt,
    .look false (altsR [seqR [spaceRun0, litS "(" false],
      seqR [spaceRun1, litS "AS" true, spaceRun1]]),
    .wordB,
    .look false (seqR [.rep (fun c => c.toNat ≠ 40) 0 none true, litS ")" false])]

/-- The GROUP-BY-branch column pattern (line 652): as `columnAggRE` but
without the trailing parenthesis lookahead. -/
def columnGbRE : RGX :=
  seqR [.wordB, backtickOpt, .grp 1 wordRun, backtickOpt,
    .look false (altsR [seqR [spaceRun0, litS "(" false],
      seqR [spaceRun1, litS "AS" true, spaceRun1]]),
    .wordB]

/-- `\bGROUP\s+BY\s+([^;)]*)` (flag `i`), the clause anchor whose span the
final replacement overwrites. -/
def groupByClauseRE : RGX :=
  seqR [.wordB, litS "GROUP" true, spaceRun1, litS "BY" true, spaceRun1,
    .grp 1 (.rep (fun c => ¬(c = ';' ∨ c = ')')) 0 none true)]

/-- `\b[`]?([a-zA-Z0-9_]+)[`]?\b` (flags `gi`), the GROUP-BY column
collector. -/
def anyIdentRE : RGX :=
  seqR [.wordB, backtickOpt, .grp 1 wordRun, backtickOpt, .wordB]

/-- `.replace` of the class of backtick, apostrophe and double quote with
the empty string (code points 96, 39, 34). -/
def stripQuotesL (l : List Char) : List Char :=
  l.filter fun c => ¬(c.toNat = 96 ∨ c.toNat = 39 ∨ c.toNat = 34)

def cleanColumn (l : List Char) : List Char := jsLowerL (stripQuotesL l)

/-- `^(count|sum|avg|min|max|group_concat)$` (flag `i`) as a whole-string
test. -/
def isAggName (l : List Char) : Bool :=
  (["count", "sum", "avg", "min", "max", "group_concat"].map String.data).contains
    (jsLowerL l)

/-- JavaScript `Set` insertion: append when absent. -/
def insertUniqL (acc : List (List Char)) (x : List Char) : List (List Char) :=
  if acc.contains x then acc else acc ++ [x]

/-- All full-match texts of a global pattern. -/
def matchTexts (r : RGX) (l : List Char) : List (List Char) :=
  (rmatchAll r l).map fun m => sliceL l m.1 m.2.1

/-- All group-1 capture texts of a global pattern. -/
def capturesG1 (r : RGX) (l : List Char) : List (List Char) :=
  (rmatchAll r l).filterMap fun m => m.2.2.g1.map fun ab => sliceL l ab.1 ab.2

/-- All (group-1, group-2) capture texts of a global pattern. -/
def capturesG12 (r : RGX) (l : List Char) : List (List Char × List Char) :=
  (rmatchAll r l).filterMap fun m =>
    match m.2.2.g1, m.2.2.g2 with
    | some ab, some cd => some (sliceL l ab.1 ab.2, sliceL l cd.1 cd.2)
    | _, _ => none

def joinL (sep : List Char) : List (List Char) → List Char
  | [] => []
  | [x] => x
  | x :: rest => x ++ sep ++ joinL sep rest

/-- The template of the (intended) deterministic rewrite: columns, the
aggregate as `agg_value`, a scalar subquery equality and `LIMIT 1`. -/
def rewriteAggregate (cols : List (List Char)) (aggExpr tableName : List Char) :
    List Char :=
  let columns := joinL ", ".data (cols.map fun c => "`".data ++ c ++ "`".data)
  let subquery := "SELECT ".data ++ aggExpr ++ " AS agg_value FROM `".data ++
    tableName ++ "`".data
  "SELECT ".data ++ columns ++ ", (".data ++ aggExpr ++
    ") AS agg_value FROM `".data ++ tableName ++ "` WHERE (".data ++ aggExpr ++
    ") = (".data ++ subquery ++ ") LIMIT 1".data

/-- `fixGroupByIssues` on character lists.  The aggregate-without-GROUP-BY
branch returns `some` on its `return` statements and `none` where the
source falls through to the regular GROUP BY handling. -/
def fixGroupByIssuesL (q : List Char) : List Char :=
  let hasAggregate := (rsearch aggRE q).isSome
  let hasGroupBy := (rsearch groupByWordRE q).isSome
  let aggResult : Option (List Char) :=
    if hasAggregate ∧ ¬hasGroupBy then
      match rsearch selectFromRE q with
      | none => some q
      | some m1 =>
        let selectPart := match m1.2.2.g1 with
          | some ab => sliceL q ab.1 ab.2
          | none => []
        match rsearch fromTableRE q with
        | none => some q
        | some m2 =>
          let tableName := match m2.2.2.g1 with
            | some ab => sliceL q ab.1 ab.2
            | none => []
          let columnMatches := matchTexts columnAggRE selectPart
          let nonAggregated := columnMatches.foldl (fun acc m =>
            let column := cleanColumn m
            if isAggName column then acc else insertUniqL acc column) []
          match rsearch aggRE selectPart with
          | some m0 =>
            if nonAggregated ≠ [] then
              some (rewriteAggregate nonAggregated (sliceL selectPart m0.1 m0.2.1)
                tableName)
            else none
          | none => none
    else none
  match aggResult with
  | some r => r
  | none =>
    match rsearch groupByClauseRE q with
    | none => q
    | some m3 =>
      let groupByPart := match m3.2.2.g1 with
        | some ab => sliceL q ab.1 ab.2
        | none => []
      match rsearch selectFromRE q with
      | none => q
      | some m4 =>
        let selectPart := match m4.2.2.g1 with
          | some ab => sliceL q ab.1 ab.2
          | none => []
        let selectColumns := (matchTexts columnGbRE selectPart).foldl (fun acc m =>
          let column := cleanColumn m
          if isAggName column then acc else insertUniqL acc column) []
        let groupByColumns := (matchTexts anyIdentRE groupByPart).foldl
          (fun acc m => insertUniqL acc (cleanColumn m)) []
        let newGroupByPart := selectColumns.foldl (fun gbp col =>
          if groupByColumns.contains (jsLowerL col) then gbp
          else gbp ++ (if gbp ≠ [] then ", `".data ++ col ++ "`".data
            else "`".data ++ col ++ "`".data)) groupByPart
        replaceFirstWith groupByClauseRE q ("GROUP BY ".data ++ newGroupByPart)

def fixGroupByIssues (s : String) : String :=
  ⟨fixGroupByIssuesL s.data⟩


theorem flatMap_nil_of_fn {α β : Type} {f : α → List β} (l : List α)
    (h : ∀ a, f a = []) : l.flatMap f = [] := by
  induction l with
  | nil => rfl
  | cons x t ih => simp [List.flatMap_cons, h x, ih]

theorem mres_seq_nil {b : RGX} {s : List Char}
    (hb : ∀ pos k, mres b s pos k = []) (a : RGX) :
    ∀ pos k, mres (.seq a b) s pos k = [] := by
  intro pos k
  simp only [mres]
  exact flatMap_nil_of_fn _ (fun pc => hb pc.1 pc.2)

theorem mres_seq_nil_left {a : RGX} {s : List Char}
    (ha : ∀ pos k, mres a s pos k = []) (b : RGX) :
    ∀ pos k, mres (.seq a b) s pos k = [] := by
  intro pos k
  simp only [mres, ha pos k]
  rfl

theorem mres_lit_rparen_nil {s : List Char} (h : ')' ∉ s) :
    ∀ pos k, mres (.lit [')'] false) s pos k = [] := by
  intro pos k
  simp only [mres]
  rw [if_neg]
  intro hlit
  cases hdrop : s.drop pos with
  | nil => rw [hdrop] at hlit; simp [litHere] at hlit
  | cons c rest =>
    rw [hdrop] at hlit
    have hc : ciEqChar ')' c false = true := by
      have := (Bool.and_eq_true _ _) ▸ (show (ciEqChar ')' c false &&
        litHere [] false rest) = true from hlit)
      exact this.1
    unfold ciEqChar at hc
    rw [if_neg (by simp)] at hc
    have hce : ')' = c := by simpa using hc
    apply h
    rw [hce]
    have : c ∈ s.drop pos := by rw [hdrop]; exact List.mem_cons_self _ _
    exact (List.drop_sublist pos s).mem this

theorem searchFrom_none {r : RGX} {s : List Char}
    (h : ∀ pos k, mres r s pos k = []) :
    ∀ start fuel, searchFrom r s start fuel = none := by
  intro start fuel
  induction fuel generalizing start with
  | zero => rfl
  | succ f ih =>
    unfold searchFrom
    by_cases hs : start ≤ s.length
    · rw [if_pos hs, h start]
      exact ih (start + 1)
    · rw [if_neg hs]

/-- The aggregate pattern ends in a closing parenthesis: on a string
containing no `)` it cannot match anywhere — which is why the scalar
subquery rewrite can never fire on a `SELECT ... FROM` capture, whose
class excludes `)`. -/
theorem aggRE_none_of_no_rparen {t : List Char} (h : ')' ∉ t) :
    rsearch aggRE t = none := by
  unfold rsearch
  apply searchFrom_none
  have h0 := mres_lit_rparen_nil h
  have h1 := mres_seq_nil_left h0 .eps
  have h2 := mres_seq_nil h1 (.rep (fun c => c.toNat ≠ 41) 1 none true)
  have h3 := mres_seq_nil h2 (litS "(" false)
  have h4 := mres_seq_nil h3 spaceRun0
  have h5 := mres_seq_nil h4 (.grp 1 (altsR [litS "MIN" true, litS "MAX" true,
    litS "AVG" true, litS "SUM" true, litS "COUNT" true]))
  have h6 := mres_seq_nil h5 .wordB
  intro pos k
  exact h6 pos k


theorem mem_ite_singleton {c : Prop} [Decidable c] {x y : Nat × Caps}
    (h : x ∈ (if c then [y] else [])) : x = y := by
  split at h
  · simpa using h
  · simp at h

theorem mem_mres_rep {p : Char → Bool} {lo : Nat} {hi : Option Nat} {g : Bool}
    {s : List Char} {pos : Nat} {k : Caps} {x : Nat × Caps}
    (h : x ∈ mres (.rep p lo hi g) s pos k) :
    ∃ n, x = (pos + n, k) ∧ n ≤ countWhile p (s.drop pos) := by
  set m0 := countWhile p (s.drop pos) with hm0
  set top := (match hi with
    | some hb => min hb m0
    | none => m0) with htop
  have htople : top ≤ m0 := by
    rw [htop]
    cases hi with
    | none => exact Nat.le_refl _
    | some hb => exact Nat.min_le_right _ _
  have hunf : mres (.rep p lo hi g) s pos k = if lo ≤ top then
      ((if g then ((List.range (top - lo + 1)).map (lo + ·)).reverse
        else (List.range (top - lo + 1)).map (lo + ·)).map fun n => (pos + n, k))
      else [] := rfl
  rw [hunf] at h
  by_cases hlo : lo ≤ top
  · rw [if_pos hlo] at h
    rw [List.mem_map] at h
    obtain ⟨n, hn, rfl⟩ := h
    have hn2 : n ∈ (List.range (top - lo + 1)).map (lo + ·) := by
      by_cases hg : g = true
      · rw [hg, if_pos rfl] at hn
        exact List.mem_reverse.mp hn
      · rw [Bool.not_eq_true] at hg
        rw [hg, if_neg (by simp)] at hn
        exact hn
    rw [List.mem_map] at hn2
    obtain ⟨i, hir, rfl⟩ := hn2
    rw [List.mem_range] at hir
    exact ⟨lo + i, rfl, by omega⟩
  · rw [if_neg hlo] at h
    simp at h

theorem mem_searchFrom {r : RGX} {s : List Char} {st e : Nat} {k : Caps} :
    ∀ {start fuel : Nat}, searchFrom r s start fuel = some (st, e, k) →
      (e, k) ∈ mres r s st {} := by
  intro start fuel
  induction fuel generalizing start with
  | zero => intro h; simp [searchFrom] at h
  | succ f ih =>
    intro h
    unfold searchFrom at h
    by_cases hs : start ≤ s.length
    · rw [if_pos hs] at h
      cases hm : mres r s start {} with
      | nil => rw [hm] at h; exact ih h
      | cons hd tl =>
        rw [hm] at h
        injection h with h'
        obtain ⟨rfl, rfl, rfl⟩ : start = st ∧ hd.1 = e ∧ hd.2 = k := by
          injection h' with h1 h2
          injection h2 with h2 h3
          exact ⟨h1, h2, h3⟩
        rw [hm]
        left
    · rw [if_neg hs] at h
      simp at h

theorem take_sat_of_le_takeWhile {p : Char → Bool} :
    ∀ {m : List Char} {n : Nat}, n ≤ (m.takeWhile p).length →
      ∀ c ∈ m.take n, p c = true := by
  intro m
  induction m with
  | nil => intro n _ c hc; simp at hc
  | cons a t ih =>
    intro n hn c hc
    by_cases hp : p a = true
    · rw [List.takeWhile_cons_of_pos hp] at hn
      cases n with
      | zero => simp at hc
      | succ n' =>
        rw [List.take_succ_cons] at hc
        rcases List.mem_cons.mp hc with rfl | hc'
        · exact hp
        · exact ih (by simpa using hn) c hc'
    · rw [List.takeWhile_cons_of_neg (by simpa using hp)] at hn
      simp at hn
      subst hn
      simp at hc


theorem mres_seq_eq (a b : RGX) (s : List Char) (pos : Nat) (k : Caps) :
    mres (.seq a b) s pos k = (mres a s pos k).flatMap fun pc => mres b s pc.1 pc.2 :=
  rfl

theorem mres_wordB_eq (s : List Char) (pos : Nat) (k : Caps) :
    mres .wordB s pos k = if wordBoundaryAt s pos then [(pos, k)] else [] := rfl

theorem mres_lit_eq (cs : List Char) (ci : Bool) (s : List Char) (pos : Nat) (k : Caps) :
    mres (.lit cs ci) s pos k =
      if litHere cs ci (s.drop pos) then [(pos + cs.length, k)] else [] := rfl

theorem mres_grp_eq (i : Nat) (r : RGX) (s : List Char) (pos : Nat) (k : Caps) :
    mres (.grp i r) s pos k =
      (mres r s pos k).map fun pc => (pc.1, pc.2.set i pos pc.1) := rfl

theorem mres_eps_eq (s : List Char) (pos : Nat) (k : Caps) :
    mres .eps s pos k = [(pos, k)] := rfl

/-- The group-1 capture of a `SELECT ... FROM` match spans only characters
of the class `[^;)]`; in particular it never contains a closing
parenthesis. -/
theorem selectFrom_capture {s : List Char} {st e : Nat} {k : Caps}
    (h : rsearch selectFromRE s = some (st, e, k)) :
    ∃ a b, k.g1 = some (a, b) ∧ ∀ c ∈ sliceL s a b, ¬(c = ';' ∨ c = ')') := by
  have hm : (e, k) ∈ mres selectFromRE s st {} := mem_searchFrom h
  unfold selectFromRE seqR litS spaceRun1 at hm
  simp only [List.foldr] at hm
  rw [mres_seq_eq, List.mem_flatMap] at hm
  obtain ⟨⟨p1, k1⟩, h1, hm⟩ := hm
  rw [mres_wordB_eq] at h1
  have hh1 := mem_ite_singleton h1
  rw [Prod.mk.injEq] at hh1
  obtain ⟨rfl, rfl⟩ := hh1
  dsimp only at hm
  rw [mres_seq_eq, List.mem_flatMap] at hm
  obtain ⟨⟨p2, k2⟩, h2, hm⟩ := hm
  rw [mres_lit_eq] at h2
  have hh2 := mem_ite_singleton h2
  rw [Prod.mk.injEq] at hh2
  obtain ⟨rfl, rfl⟩ := hh2
  dsimp only at hm
  rw [mres_seq_eq, List.mem_flatMap] at hm
  obtain ⟨⟨p3, k3⟩, h3, hm⟩ := hm
  obtain ⟨n3, hn3, -⟩ := mem_mres_rep h3
  rw [Prod.mk.injEq] at hn3
  obtain ⟨rfl, rfl⟩ := hn3
  dsimp only at hm
  rw [mres_seq_eq, List.mem_flatMap] at hm
  obtain ⟨⟨p4, k4⟩, h4, hm⟩ := hm
  rw [mres_grp_eq, List.mem_map] at h4
  obtain ⟨⟨p5, k5⟩, h5, heq⟩ := h4
  dsimp only at heq
  rw [Prod.mk.injEq] at heq
  obtain ⟨rfl, rfl⟩ := heq
  obtain ⟨n5, hn5, hb5⟩ := mem_mres_rep h5
  rw [Prod.mk.injEq] at hn5
  obtain ⟨rfl, rfl⟩ := hn5
  dsimp only at hm
  rw [mres_seq_eq, List.mem_flatMap] at hm
  obtain ⟨⟨p6, k6⟩, h6, hm⟩ := hm
  obtain ⟨n6, hn6, -⟩ := mem_mres_rep h6
  rw [Prod.mk.injEq] at hn6
  obtain ⟨rfl, rfl⟩ := hn6
  dsimp only at hm
  rw [mres_seq_eq, List.mem_flatMap] at hm
  obtain ⟨⟨p7, k7⟩, h7, hm⟩ := hm
  rw [mres_lit_eq] at h7
  have hh7 := mem_ite_singleton h7
  rw [Prod.mk.injEq] at hh7
  obtain ⟨rfl, rfl⟩ := hh7
  dsimp only at hm
  rw [mres_seq_eq, List.mem_flatMap] at hm
  obtain ⟨⟨p8, k8⟩, h8, hm⟩ := hm
  rw [mres_wordB_eq] at h8
  have hh8 := mem_ite_singleton h8
  rw [Prod.mk.injEq] at hh8
  obtain ⟨rfl, rfl⟩ := hh8
  dsimp only at hm
  rw [mres_eps_eq, List.mem_singleton, Prod.mk.injEq] at hm
  obtain ⟨-, rfl⟩ := hm
  refine ⟨_, _, rfl, ?_⟩
  intro c hc
  unfold sliceL at hc
  rw [Nat.add_sub_cancel_left] at hc
  have hsat := take_sat_of_le_takeWhile hb5 c hc
  simpa using hsat


theorem fixGroupByIssuesL_anchors (l : List Char) :
    (rsearch selectFromRE l = none → fixGroupByIssuesL l = l) ∧
    (rsearch groupByClauseRE l = none → fixGroupByIssuesL l = l) ∧
    ((rsearch aggRE l).isSome = true → rsearch groupByWordRE l = none →
      rsearch fromTableRE l = none → fixGroupByIssuesL l = l) := by
  refine ⟨?_, ?_, ?_⟩
  · intro hsel
    unfold fixGroupByIssuesL
    simp only [hsel]
    by_cases hcond : (rsearch aggRE l).isSome = true ∧
        ¬(rsearch groupByWordRE l).isSome = true
    · simp [hcond]
    · simp only [if_neg hcond]
      cases hgbc : rsearch groupByClauseRE l with
      | none => simp
      | some m3 => simp
  · intro hgbc
    unfold fixGroupByIssuesL
    by_cases hcond : (rsearch aggRE l).isSome = true ∧
        ¬(rsearch groupByWordRE l).isSome = true
    · simp only [if_pos hcond]
      cases hsel : rsearch selectFromRE l with
      | none => simp [hgbc]
      | some m1 =>
        cases hft : rsearch fromTableRE l with
        | none => simp [hgbc]
        | some m2 =>
          obtain ⟨a, b, hg1, hclass⟩ := selectFrom_capture
            (show rsearch selectFromRE l = some (m1.1, m1.2.1, m1.2.2) by rw [hsel])
          have hnp : ')' ∉ sliceL l a b := by
            intro hmem
            exact hclass ')' hmem (Or.inr rfl)
          have hagg : rsearch aggRE (match m1.2.2.g1 with
              | some ab => sliceL l ab.1 ab.2
              | none => []) = none := by
            rw [hg1]
            exact aggRE_none_of_no_rparen hnp
          simp only [hagg]
          simp [hgbc]
    · simp only [if_neg hcond, hgbc]
  · intro hagg hgbw hft
    unfold fixGroupByIssuesL
    simp only [hft, hgbw]
    have hcond : (rsearch aggRE l).isSome = true ∧
        ¬((none : Option (Nat × Nat × Caps)).isSome = true) := ⟨hagg, by simp⟩
    simp only [if_pos hcond]
    cases hsel : rsearch selectFromRE l with
    | none => simp
    | some m1 => simp


/-- C9: `fixGroupByIssues` is a total transform (a function in this
embedding) that returns its input unchanged whenever a required anchor is
missing: when the `SELECT ... FROM` capture cannot be located, when the
`GROUP BY` clause cannot be located, and when the aggregate branch is
entered but the `FROM` table cannot be located. -/
theorem C9_fixGroupByIssues_best_effort (q : String) :
    (rsearch selectFromRE q.data = none → fixGroupByIssues q = q) ∧
    (rsearch groupByClauseRE q.data = none → fixGroupByIssues q = q) ∧
    ((rsearch aggRE q.data).isSome = true → rsearch groupByWordRE q.data = none →
      rsearch fromTableRE q.data = none → fixGroupByIssues q = q) := by
  have h := fixGroupByIssuesL_anchors q.data
  have hwrap : ∀ (hl : fixGroupByIssuesL q.data = q.data), fixGroupByIssues q = q := by
    intro hl
    unfold fixGroupByIssues
    rw [hl]
  exact ⟨fun h1 => hwrap (h.1 h1), fun h2 => hwrap (h.2.1 h2),
    fun h3 h4 h5 => hwrap (h.2.2 h3 h4 h5)⟩

/-- Witness for C9 on concrete queries with missing anchors. -/
theorem C9_fixGroupByIssues_best_effort_witness :
    fixGroupByIssues "no sql here" = "no sql here" ∧
    fixGroupByIssues "SELECT name, MAX(amount) FROM orders" =
      "SELECT name, MAX(amount) FROM orders" := by
  constructor
  · exact (C9_fixGroupByIssues_best_effort "no sql here").1 (by decide)
  · exact (C9_fixGroupByIssues_best_effort
      "SELECT name, MAX(amount) FROM orders").1 (by decide)


set_option maxHeartbeats 2000000 in
/-- C1: the deterministic scalar-subquery rewrite never happens.  For the
canonical aggregate statement with no GROUP BY the aggregate test fires
and the branch is entered, yet the statement is returned unchanged: the
`SELECT ... FROM` capture class `[^;)]` cannot span the `)` of
`MAX(amount)`, so the rewrite (whose template the code's comments
describe) is unreachable. -/
theorem C1_fixGroupByIssues_dead_rewrite :
    (rsearch aggRE ("SELECT MAX(amount) FROM orders").data).isSome = true ∧
    rsearch groupByWordRE ("SELECT MAX(amount) FROM orders").data = none ∧
    fixGroupByIssues "SELECT MAX(amount) FROM orders" =
      "SELECT MAX(amount) FROM orders" := by
  refine ⟨by decide, by decide, by decide⟩


/-! ### Column validation (`validateColumnNames`, documentService.ts) -/

/-- The column-context pattern:
`\b[`]?([a-zA-Z0-9_]+)[`]?\b(?=\s*(?:[=<>]|IS|IN|LIKE|BETWEEN|\+|-|\*|\/|%|,|\)|$))`
(flags `gi`). -/
def columnCtxRE : RGX :=
  seqR [.wordB, backtickOpt, .grp 1 wordRun, backtickOpt, .wordB,
    .look true (seqR [spaceRun0,
      altsR [.cls (fun c => c = '=' ∨ c = '<' ∨ c = '>'),
        litS "IS" true, litS "IN" true, litS "LIKE" true, litS "BETWEEN" true,
        clsC '+', clsC '-', clsC '*', clsC '/', clsC '%', clsC ',', clsC ')',
        .eol]])]

/-- `\b([a-zA-Z0-9_]+)\.([a-zA-Z0-9_]+)\b` (flags `gi`). -/
def tableColumnRE : RGX :=
  seqR [.wordB, .grp 1 wordRun, litS "." false, .grp 2 wordRun, .wordB]

/-- `\bAS\s+([a-zA-Z0-9_]+)(?=\s*(?:,|$|\)))` (flags `gi`). -/
def derivedAliasRE : RGX :=
  seqR [.wordB, litS "AS" true, spaceRun1, .grp 1 wordRun,
    .look true (seqR [spaceRun0, altsR [clsC ',', .eol, clsC ')']])]

def sqlKeywordsL : List (List Char) :=
  (["SELECT", "FROM", "WHERE", "GROUP", "BY", "HAVING", "ORDER", "JOIN",
    "LEFT", "RIGHT", "INNER", "OUTER", "ON", "AS", "AND", "OR", "NOT", "IN",
    "BETWEEN", "LIKE", "IS", "NULL", "ASC", "DESC", "LIMIT", "OFFSET"]).map
    String.data

structure SchemaCol where
  Field : String
deriving DecidableEq, Repr

structure Schema where
  tableName : String
  actualTableName : String
  originalName : String
  columns : List SchemaCol
deriving DecidableEq, Repr

structure ValidationResult where
  valid : Bool
  error : Option String := none
  availableColumns : Option (List String) := none
deriving DecidableEq, Repr

/-- The derived-table aliases collected from `AS alias` occurrences,
lower-cased, in insertion order. -/
def derivedAliasesOf (q : List Char) : List (List Char) :=
  (capturesG1 derivedAliasRE q).foldl (fun acc m => insertUniqL acc (jsLowerL m)) []

/-- The referenced columns: group-1 captures in operator/list context that
are neither keywords nor aliases, then the column parts of `table.column`
references whose table is no alias and whose column is no keyword; a
JavaScript `Set`, so insertion-ordered and deduplicated. -/
def referencedColumnsOf (q : List Char) : List (List Char) :=
  let aliases := derivedAliasesOf q
  let fromCtx := (capturesG1 columnCtxRE q).foldl (fun acc name =>
    if sqlKeywordsL.contains (jsUpperL name) ∨ aliases.contains (jsLowerL name) then acc
    else insertUniqL acc name) []
  (capturesG12 tableColumnRE q).foldl (fun acc m =>
    if aliases.contains (jsLowerL m.1) ∨ sqlKeywordsL.contains (jsUpperL m.2) then acc
    else insertUniqL acc m.2) fromCtx

/-- Every schema column's `Field`, followed by its lower-casing, across all
schemas, in insertion order. -/
def availableColumnsOf (schemas : List Schema) : List (List Char) :=
  schemas.foldl (fun acc sch =>
    sch.columns.foldl (fun acc2 col =>
      insertUniqL (insertUniqL acc2 col.Field.data) (jsLowerL col.Field.data)) acc) []

/-- A referenced column is offending when neither its exact nor its
lower-cased form is available and it is not a keyword. -/
def invalidColumnsOf (q : List Char) (schemas : List Schema) : List (List Char) :=
  (referencedColumnsOf q).filter fun col =>
    ¬(availableColumnsOf schemas).contains col ∧
    ¬(availableColumnsOf schemas).contains (jsLowerL col) ∧
    ¬sqlKeywordsL.contains (jsUpperL col)

/-- `validateColumnNames`: reject with the offending list and the full
legal-column list when any collected reference is unmatched (the
surrounding catch is unreachable for these pure string operations). -/
def validateColumnNames (sqlQuery : String) (schemas : List Schema) :
    ValidationResult :=
  let invalid := invalidColumnsOf sqlQuery.data schemas
  if invalid ≠ [] then
    { valid := false,
      error := some ⟨"Invalid column(s): ".data ++ joinL ", ".data invalid⟩,
      availableColumns :=
        some ((availableColumnsOf schemas).map fun l => (⟨l⟩ : String)) }
  else { valid := true }


/-- C4 as stated is false on the code: `SELECT revenue FROM orders;`
references `revenue`, which matches no column of a schema exposing only
`total_revenue`, yet the validator accepts the statement — the collector
only captures identifiers followed by an operator, comma, closing
parenthesis or end of text, and both `revenue` (followed by `FROM`) and
`orders` (followed by the semicolon) escape it. -/
theorem C4_validateColumnNames_counterexample :
    validateColumnNames "SELECT revenue FROM orders;"
      [⟨"t", "t", "t", [⟨"total_revenue"⟩]⟩] =
      { valid := true, error := none, availableColumns := none } := by
  decide

/-- C4 (amended): offending identifiers are those collected by the
operator-context and `table.column` patterns; when any exists the
statement is rejected before execution with every collected offender
enumerated in the error, together with the full legal-column list. -/
theorem C4_validateColumnNames_enumeration (q : String) (schemas : List Schema) :
    (invalidColumnsOf q.data schemas ≠ [] →
      (validateColumnNames q schemas).valid = false ∧
      (validateColumnNames q schemas).error =
        some ⟨"Invalid column(s): ".data ++
          joinL ", ".data (invalidColumnsOf q.data schemas)⟩ ∧
      (validateColumnNames q schemas).availableColumns =
        some ((availableColumnsOf schemas).map fun l => (⟨l⟩ : String)) ∧
      (∀ col ∈ referencedColumnsOf q.data,
        ¬(availableColumnsOf schemas).contains col →
        ¬(availableColumnsOf schemas).contains (jsLowerL col) →
        ¬sqlKeywordsL.contains (jsUpperL col) →
        col ∈ invalidColumnsOf q.data schemas)) ∧
    (invalidColumnsOf q.data schemas = [] →
      validateColumnNames q schemas = { valid := true }) := by
  constructor
  · intro hne
    unfold validateColumnNames
    rw [if_pos hne]
    refine ⟨rfl, rfl, rfl, ?_⟩
    intro col hcol h1 h2 h3
    unfold invalidColumnsOf
    rw [List.mem_filter]
    refine ⟨hcol, ?_⟩
    simp at h1 h2 h3 ⊢
    exact ⟨h1, h2, h3⟩
  · intro he
    unfold validateColumnNames
    rw [if_neg (by simp [he])]

/-- Witness for the amended C4: `revenue` in operator context against a
schema exposing only `total_revenue` is rejected with `revenue` enumerated
and `total_revenue` among the legal columns. -/
theorem C4_validateColumnNames_enumeration_witness :
    (validateColumnNames "SELECT revenue FROM t WHERE revenue > 100;"
      [⟨"t", "t", "t", [⟨"total_revenue"⟩]⟩]).valid = false ∧
    (validateColumnNames "SELECT revenue FROM t WHERE revenue > 100;"
      [⟨"t", "t", "t", [⟨"total_revenue"⟩]⟩]).error =
      some "Invalid column(s): revenue" ∧
    (validateColumnNames "SELECT revenue FROM t WHERE revenue > 100;"
      [⟨"t", "t", "t", [⟨"total_revenue"⟩]⟩]).availableColumns =
      some ["total_revenue"] := by
  have h := (C4_validateColumnNames_enumeration
    "SELECT revenue FROM t WHERE revenue > 100;"
    [⟨"t", "t", "t", [⟨"total_revenue"⟩]⟩]).1 (by decide)
  refine ⟨h.1, ?_, ?_⟩
  · rw [h.2.1]
    decide
  · rw [h.2.2.1]
    decide

end AskData
